import Mathlib

/-!
# bmarshaller: binary framing Encoder / Decoder

Shallow embedding of `common.go`, `marshaller.go` and `unmarshaller.go`.

Conventions of the embedding:

* a byte is a `Nat` (a value below 256 in every well-formed input), a byte
  slice is a `List Nat`, a Go string is the list of its bytes;
* Go's unsigned integers are `Nat`, with an explicit `% 2^w` wherever the
  source converts to a narrower type; Go's `int` is `Int`;
* a Go method with a pointer receiver that returns `err` becomes a function
  returning the updated receiver together with `Option Err` (`none` is `nil`);
* a nil-able slice result is an `Option (List Nat)` (`none` is the nil slice);
* the objects handed out by the two `sync.Pool`s are explicit arguments: the
  8-byte scratch buffer `tmp` (its previous contents are arbitrary) and the
  accumulator `bytes.Buffer` (written `payload` / `buffer`). Both places that
  put an accumulator back in its pool reset it first, so the pool hands out an
  empty accumulator (`[]`) as long as no encoder is written to after its
  `CollectDataAndReleaseBuffers`; such a late write is not refused and leaves
  its bytes in a buffer that sits in the pool (`pooledAfterLateWrite`).
-/

namespace Marshalling

/-! ## common.go -/

/-- Context attached by the `fmt.Errorf` calls of the package. -/
inductive ErrContext where
  /-- Text "value is too long to be serialized with uint8 header". -/
  | valueTooLong
  /-- Text of the failed 8-byte chunk read of `readDataSegment`. -/
  | cantReadNext8
  /-- Text of the failed last chunk read of `readDataSegment`, with the
  formatted byte count `delta`. -/
  | cantReadNext (delta : Int)
  deriving DecidableEq

/-- Error values: the three sentinels of `common.go`, `io.EOF`, an error of an
external collaborator, and the errors built by `fmt.Errorf("...: %w", cause)`:
`wrap` around a non-nil cause, `wrapNil` around a nil one. -/
inductive Err where
  | ErrEncoderIsReleased
  | ErrPayloadIsToLarge
  | ErrPayloadIsToSmall
  | EOF
  | external (code : Nat)
  | wrap (ctx : ErrContext) (cause : Err)
  | wrapNil (ctx : ErrContext)
  deriving DecidableEq

/-- The error built by `fmt.Errorf("...: %w", err)` for a possibly nil `err`. -/
def Errorf (ctx : ErrContext) (err : Option Err) : Err :=
  match err with
  | some cause => Err.wrap ctx cause
  | none => Err.wrapNil ctx

/-- Chain walk of `errors.Is err target`. -/
def Err.Is : Err → Err → Bool
  | .wrap ctx cause, target =>
    if Err.wrap ctx cause = target then true else Err.Is cause target
  | e, target => decide (e = target)

def MaxUint8 : Nat := 255

def MaxUint16 : Nat := 65535

/-! ## Slices and `encoding/binary` -/

/-- Store `bs` into the first `bs.length` cells of `buf`, the other cells
keep their content. -/
def store (buf bs : List Nat) : List Nat :=
  bs ++ buf.drop bs.length

/-- Bytes stored by `binary.BigEndian.PutUint16(b, v)`. -/
def bigEndianPutUint16 (v : Nat) : List Nat :=
  [(v >>> 8) % 256, v % 256]

/-- Bytes stored by `binary.BigEndian.PutUint32(b, v)`. -/
def bigEndianPutUint32 (v : Nat) : List Nat :=
  [(v >>> 24) % 256, (v >>> 16) % 256, (v >>> 8) % 256, v % 256]

/-- Bytes stored by `binary.BigEndian.PutUint64(b, v)`. -/
def bigEndianPutUint64 (v : Nat) : List Nat :=
  [(v >>> 56) % 256, (v >>> 48) % 256, (v >>> 40) % 256, (v >>> 32) % 256,
   (v >>> 24) % 256, (v >>> 16) % 256, (v >>> 8) % 256, v % 256]

/-- Value of `binary.BigEndian.Uint16(b)`. -/
def bigEndianUint16 (b : List Nat) : Nat :=
  b.getD 1 0 ||| (b.getD 0 0 <<< 8)

/-- Value of `binary.BigEndian.Uint32(b)`. -/
def bigEndianUint32 (b : List Nat) : Nat :=
  b.getD 3 0 ||| (b.getD 2 0 <<< 8) ||| (b.getD 1 0 <<< 16) ||| (b.getD 0 0 <<< 24)

/-- Value of `binary.BigEndian.Uint64(b)`. -/
def bigEndianUint64 (b : List Nat) : Nat :=
  b.getD 7 0 ||| (b.getD 6 0 <<< 8) ||| (b.getD 5 0 <<< 16) ||| (b.getD 4 0 <<< 24) |||
    (b.getD 3 0 <<< 32) ||| (b.getD 2 0 <<< 40) ||| (b.getD 1 0 <<< 48) ||| (b.getD 0 0 <<< 56)

/-! ## External collaborators of the encoder -/

/-- Value of `(*big.Int).Bytes()` for the magnitude `n`, most significant byte
first, accumulated in `acc`; `fuel` bounds the number of bytes. -/
def magnitudeBytes : Nat → Nat → List Nat → List Nat
  | 0, _, acc => acc
  | fuel + 1, n, acc =>
    if n = 0 then acc else magnitudeBytes fuel (n / 256) (n % 256 :: acc)

/-- Value of `(*big.Int).Bytes()`: the absolute value as a big-endian byte
slice without leading zeros. -/
def bigIntBytes (value : Int) : List Nat :=
  magnitudeBytes value.natAbs value.natAbs []

/-- A value with a `MarshalBinary` method (`encoding.BinaryMarshaler`, and
`time.Time`), represented by what the method returns. -/
structure BinaryMarshaler where
  MarshalBinary : List Nat × Option Err

/-! ## marshaller.go -/

structure Encoder where
  tmpBuffer : List Nat
  payload : List Nat
  isReleased : Bool
  deriving DecidableEq

/-- `NewEncoder`; `tmp` and `payload` are the objects obtained from
`tmp8BytesBuffersPool` and `payloadBuffersPool`. -/
def NewEncoder (tmp payload : List Nat) : Encoder :=
  { tmpBuffer := tmp, payload := payload, isReleased := true }

/-- `CollectDataAndReleaseBuffers`: the returned copy and the encoder after
the call. -/
def Encoder.CollectDataAndReleaseBuffers (e : Encoder) : List Nat × Encoder :=
  let data := e.payload
  (data, { e with isReleased := true, payload := [] })

def Encoder.PutVariadicDataWith2BytesHeader (e : Encoder) (data : List Nat) :
    Encoder × Option Err :=
  if data.length > MaxUint16 then
    (e, some (Errorf ErrContext.valueTooLong (some Err.ErrPayloadIsToLarge)))
  else
    let tmp := store e.tmpBuffer (bigEndianPutUint16 (data.length % 65536))
    let payload := e.payload ++ tmp.take 2
    ({ e with tmpBuffer := tmp, payload := payload ++ data }, none)

def Encoder.PutString (e : Encoder) (value : List Nat) : Encoder × Option Err :=
  e.PutVariadicDataWith2BytesHeader value

def Encoder.PutUint64 (e : Encoder) (value : Nat) : Encoder × Option Err :=
  if e.isReleased == false then (e, some Err.ErrEncoderIsReleased)
  else
    let tmp := store e.tmpBuffer (bigEndianPutUint64 value)
    ({ e with tmpBuffer := tmp, payload := e.payload ++ tmp.take 8 }, none)

def Encoder.PutUint32 (e : Encoder) (value : Nat) : Encoder × Option Err :=
  if e.isReleased == false then (e, some Err.ErrEncoderIsReleased)
  else
    let tmp := store e.tmpBuffer (bigEndianPutUint32 value)
    ({ e with tmpBuffer := tmp, payload := e.payload ++ tmp.take 4 }, none)

def Encoder.PutUint16 (e : Encoder) (value : Nat) : Encoder × Option Err :=
  if e.isReleased == false then (e, some Err.ErrEncoderIsReleased)
  else
    let tmp := store e.tmpBuffer (bigEndianPutUint16 value)
    ({ e with tmpBuffer := tmp, payload := e.payload ++ tmp.take 2 }, none)

def Encoder.PutUint8 (e : Encoder) (value : Nat) : Encoder × Option Err :=
  if e.isReleased == false then (e, some Err.ErrEncoderIsReleased)
  else
    let tmp := store e.tmpBuffer [value]
    ({ e with tmpBuffer := tmp, payload := e.payload ++ tmp.take 1 }, none)

def Encoder.PutVariadicDataWithByteHeader (e : Encoder) (data : List Nat) :
    Encoder × Option Err :=
  if data.length > MaxUint8 then
    (e, some (Errorf ErrContext.valueTooLong (some Err.ErrPayloadIsToLarge)))
  else
    let payload := e.payload ++ [data.length % 256]
    ({ e with payload := payload ++ data }, none)

def Encoder.PutBigIntWithByteHeader (e : Encoder) (value : Int) : Encoder × Option Err :=
  if e.isReleased == false then (e, some Err.ErrEncoderIsReleased)
  else
    let binData := bigIntBytes value
    e.PutVariadicDataWithByteHeader binData

def Encoder.PutTimeWithByte8Header (e : Encoder) (value : BinaryMarshaler) :
    Encoder × Option Err :=
  if e.isReleased == false then (e, some Err.ErrEncoderIsReleased)
  else
    match value.MarshalBinary with
    | (_, some err) => (e, some err)
    | (binData, none) => e.PutVariadicDataWithByteHeader binData

def Encoder.MarshallVariadicDataWith2BytesHeader (e : Encoder) (s : BinaryMarshaler) :
    Encoder × Option Err :=
  match s.MarshalBinary with
  | (_, some err) => (e, some err)
  | (binaryData, none) => e.PutVariadicDataWith2BytesHeader binaryData

def Encoder.MarshallVariadicDataWithByteHeader (e : Encoder) (s : BinaryMarshaler) :
    Encoder × Option Err :=
  match s.MarshalBinary with
  | (_, some err) => (e, some err)
  | (binaryData, none) => e.PutVariadicDataWithByteHeader binaryData

def Encoder.PutFixedSizeDataSegment (e : Encoder) (data : List Nat) : Encoder × Option Err :=
  let err := if data.length = 0 then some Err.ErrPayloadIsToSmall else none
  ({ e with payload := e.payload ++ data }, err)

def Encoder.MarshallFixedSizeDataSegment (e : Encoder) (s : BinaryMarshaler) :
    Encoder × Option Err :=
  match s.MarshalBinary with
  | (_, some err) => (e, some err)
  | (binaryData, none) => e.PutFixedSizeDataSegment binaryData

/-! ## unmarshaller.go -/

/-- What one call `n, err := reader.Read(p)` of an `io.Reader` produces: the
content of `p` after the call, the count `n`, the error and the reader after
the call. -/
structure ReadResult (σ : Type) where
  p : List Nat
  n : Int
  err : Option Err
  next : σ

/-- A `*bytes.Reader`: the slice `s` and the read index `i`. -/
structure BytesReader where
  s : List Nat
  i : Nat
  deriving DecidableEq

/-- `(*bytes.Reader).Read`: at the end of `s` it returns `0, io.EOF`, otherwise
it copies `min (len b) (len s - i)` bytes and advances `i` by that count. -/
def BytesReader.Read (r : BytesReader) (b : List Nat) : ReadResult BytesReader :=
  if r.i ≥ r.s.length then { p := b, n := 0, err := some Err.EOF, next := r }
  else
    let n := min b.length (r.s.length - r.i)
    { p := store b ((r.s.drop r.i).take n), n := (n : Int), err := none,
      next := { r with i := r.i + n } }

/-- The bytes of a `*bytes.Reader` that are still unread. -/
def BytesReader.unread (r : BytesReader) : List Nat :=
  r.s.drop r.i

/-- A `Decoder`: the `io.Reader` it holds, given by its `Read` method and its
state. -/
structure Decoder (σ : Type) where
  Read : σ → List Nat → ReadResult σ
  reader : σ

def NewDecoder (data : List Nat) : Decoder BytesReader :=
  { Read := BytesReader.Read, reader := { s := data, i := 0 } }

/-- How a call that may abort ends: a normal return, a run-time panic (slice
bounds out of range), or the iteration bound of the embedding being reached. -/
inductive Outcome (α : Type) where
  | returned (a : α)
  | panicked
  | outOfFuel
  deriving DecidableEq

def Decoder.GetUint64 {σ : Type} (d : Decoder σ) (tmp : List Nat) : (Nat × Option Err) × Decoder σ :=
  let r := d.Read d.reader (tmp.take 8)
  let tmp := store tmp r.p
  match r.err with
  | some err => ((0, some err), { d with reader := r.next })
  | none => ((bigEndianUint64 tmp, none), { d with reader := r.next })

def Decoder.GetUint32 {σ : Type} (d : Decoder σ) (tmp : List Nat) : (Nat × Option Err) × Decoder σ :=
  let r := d.Read d.reader (tmp.take 4)
  let tmp := store tmp r.p
  match r.err with
  | some err => ((0, some err), { d with reader := r.next })
  | none => ((bigEndianUint32 tmp, none), { d with reader := r.next })

def Decoder.GetUint16 {σ : Type} (d : Decoder σ) (tmp : List Nat) : (Nat × Option Err) × Decoder σ :=
  let r := d.Read d.reader (tmp.take 2)
  let tmp := store tmp r.p
  match r.err with
  | some err => ((0, some err), { d with reader := r.next })
  | none => ((bigEndianUint16 tmp, none), { d with reader := r.next })

def Decoder.GetUint8 {σ : Type} (d : Decoder σ) (tmp : List Nat) : (Nat × Option Err) × Decoder σ :=
  let r := d.Read d.reader (tmp.take 1)
  let tmp := store tmp r.p
  match r.err with
  | some err => ((0, some err), { d with reader := r.next })
  | none => ((tmp.getD 0 0, none), { d with reader := r.next })

/-- The `for` loop of `readDataSegment` followed by the copy of the
accumulated bytes; every iteration takes one unit of `fuel`. -/
def readLoop {σ : Type} (Read : σ → List Nat → ReadResult σ) (size : Int) :
    Nat → σ → List Nat → List Nat → Int →
      Outcome (Option (List Nat) × Option Err) × σ
  | 0, reader, _, _, _ => (Outcome.outOfFuel, reader)
  | fuel + 1, reader, tmp, buffer, bytesProcessed =>
    if bytesProcessed = size then
      (Outcome.returned (some buffer, none), reader)
    else
      let delta := size - bytesProcessed
      if delta ≥ 8 then
        let r := Read reader tmp
        if r.err ≠ none ∨ r.n ≠ 8 then
          (Outcome.returned (none, some (Errorf ErrContext.cantReadNext8 r.err)), r.next)
        else
          let tmp := store tmp r.p
          readLoop Read size fuel r.next tmp (buffer ++ tmp) (bytesProcessed + r.n)
      else if delta < 0 then
        (Outcome.panicked, reader)
      else
        let r := Read reader (tmp.take delta.toNat)
        if r.err ≠ none ∨ r.n ≠ delta then
          (Outcome.returned (none, some (Errorf (ErrContext.cantReadNext delta) r.err)), r.next)
        else
          let tmp := store tmp r.p
          readLoop Read size fuel r.next tmp (buffer ++ tmp.take delta.toNat)
            (bytesProcessed + r.n)

/-- `readDataSegment`; `tmp` and `buffer` are the objects obtained from
`tmp8BytesBuffersPool` and `payloadBuffersPool` (the deferred reset and the
return of both to their pools leave the result unchanged). The loop is given
`size.toNat + 1` iterations: each one that does not return consumes at least
one byte, so a non-negative `size` never uses them all. -/
def Decoder.readDataSegment {σ : Type} (d : Decoder σ) (size : Int) (tmp buffer : List Nat) :
    Outcome (Option (List Nat) × Option Err) × Decoder σ :=
  let out := readLoop d.Read size (size.toNat + 1) d.reader tmp buffer 0
  (out.1, { d with reader := out.2 })

def Decoder.GetDataSegment {σ : Type} (d : Decoder σ) (size : Int) (tmp buffer : List Nat) :
    Outcome (Option (List Nat) × Option Err) × Decoder σ :=
  d.readDataSegment size tmp buffer

/-- `GetDataSegmentWithByteHeader`; `tmp1` is the scratch buffer of the
`GetUint8` call, `tmp2` and `buffer` are the pooled objects of the
`readDataSegment` call. -/
def Decoder.GetDataSegmentWithByteHeader {σ : Type} (d : Decoder σ) (tmp1 tmp2 buffer : List Nat) :
    Outcome (Option (List Nat) × Option Err) × Decoder σ :=
  match d.GetUint8 tmp1 with
  | ((_, some err), d1) => (Outcome.returned (none, some err), d1)
  | ((dataLength, none), d1) => d1.readDataSegment (dataLength : Int) tmp2 buffer

/-- `GetDataSegmentWith2BytesHeader`; `tmp1` is the scratch buffer of the
`GetUint16` call, `tmp2` and `buffer` are the pooled objects of the
`readDataSegment` call. -/
def Decoder.GetDataSegmentWith2BytesHeader {σ : Type} (d : Decoder σ) (tmp1 tmp2 buffer : List Nat) :
    Outcome (Option (List Nat) × Option Err) × Decoder σ :=
  match d.GetUint16 tmp1 with
  | ((_, some err), d1) => (Outcome.returned (none, some err), d1)
  | ((dataLength, none), d1) => d1.readDataSegment (dataLength : Int) tmp2 buffer

/-- `GetString`: the string result is the empty string when an error is
returned. -/
def Decoder.GetString {σ : Type} (d : Decoder σ) (tmp1 tmp2 buffer : List Nat) :
    Outcome (List Nat × Option Err) × Decoder σ :=
  match d.GetDataSegmentWith2BytesHeader tmp1 tmp2 buffer with
  | (Outcome.returned (_, some err), d1) => (Outcome.returned ([], some err), d1)
  | (Outcome.returned (data, none), d1) => (Outcome.returned (data.getD [], none), d1)
  | (Outcome.panicked, d1) => (Outcome.panicked, d1)
  | (Outcome.outOfFuel, d1) => (Outcome.outOfFuel, d1)

/-! ## Sequences of encoder calls -/

/-- One call of a `Put*` method of the encoder, with its argument. -/
inductive PutCall where
  | uint8 (value : Nat)
  | uint16 (value : Nat)
  | uint32 (value : Nat)
  | uint64 (value : Nat)
  | string (value : List Nat)
  | variadicDataWithByteHeader (data : List Nat)
  | variadicDataWith2BytesHeader (data : List Nat)
  | bigIntWithByteHeader (value : Int)
  | timeWithByte8Header (value : BinaryMarshaler)
  | fixedSizeDataSegment (data : List Nat)

/-- Perform one `Put*` call. -/
def Encoder.call (e : Encoder) : PutCall → Encoder × Option Err
  | .uint8 value => e.PutUint8 value
  | .uint16 value => e.PutUint16 value
  | .uint32 value => e.PutUint32 value
  | .uint64 value => e.PutUint64 value
  | .string value => e.PutString value
  | .variadicDataWithByteHeader data => e.PutVariadicDataWithByteHeader data
  | .variadicDataWith2BytesHeader data => e.PutVariadicDataWith2BytesHeader data
  | .bigIntWithByteHeader value => e.PutBigIntWithByteHeader value
  | .timeWithByte8Header value => e.PutTimeWithByte8Header value
  | .fixedSizeDataSegment data => e.PutFixedSizeDataSegment data

/-- Perform the calls in order, whatever error each one returns. -/
def Encoder.calls (e : Encoder) : List PutCall → Encoder
  | [] => e
  | c :: cs => (e.call c).1.calls cs

/-- The bytes one call appends: what the accumulator holds after the call
beyond its length before the call. -/
def Encoder.appended (e : Encoder) (c : PutCall) : List Nat :=
  (e.call c).1.payload.drop e.payload.length

/-- The bytes appended by each call of a sequence, in call order. -/
def Encoder.appendedTrace (e : Encoder) : List PutCall → List (List Nat)
  | [] => []
  | c :: cs => e.appended c :: (e.call c).1.appendedTrace cs

/-! ## The rest of the decoder -/

/-- Value of `(*big.Int).SetBytes(data)`: `data` read as a big-endian unsigned
integer. -/
def bigIntSetBytes (data : List Nat) : Int :=
  ((data.foldl (fun acc b => acc * 256 + b) 0 : Nat) : Int)

/-- A value with an `UnmarshalBinary` method (`encoding.BinaryUnmarshaler`),
represented by the error the method returns on each input. -/
structure BinaryUnmarshaler where
  UnmarshalBinary : List Nat → Option Err

/-- `GetBigIntWithByteHeader`; `tmp1` is the scratch buffer the method takes
from the pool, `tmp2` and `buffer` are the pooled objects of the
`readDataSegment` call. The result is `none` for the nil pointer. -/
def Decoder.GetBigIntWithByteHeader {σ : Type} (d : Decoder σ) (tmp1 tmp2 buffer : List Nat) :
    Outcome (Option Int × Option Err) × Decoder σ :=
  let r := d.Read d.reader (tmp1.take 1)
  let tmp := store tmp1 r.p
  let valueSize : Int := ((tmp.getD 0 0 : Nat) : Int)
  match r.err with
  | some err => (Outcome.returned (none, some err), { d with reader := r.next })
  | none =>
    match Decoder.readDataSegment { d with reader := r.next } valueSize tmp2 buffer with
    | (Outcome.returned (_, some err), d1) => (Outcome.returned (none, some err), d1)
    | (Outcome.returned (data, none), d1) =>
      (Outcome.returned (some (bigIntSetBytes (data.getD [])), none), d1)
    | (Outcome.panicked, d1) => (Outcome.panicked, d1)
    | (Outcome.outOfFuel, d1) => (Outcome.outOfFuel, d1)

/-- `GetTimeWithUint8Header`; the `time.Time` result is represented by the
bytes its `UnmarshalBinary` method accepted (`none` for the zero value, which
is what the result still is when `UnmarshalBinary` returns an error), and
`UnmarshalBinary` by the error it returns on its input. -/
def Decoder.GetTimeWithUint8Header {σ : Type} (d : Decoder σ)
    (UnmarshalBinary : List Nat → Option Err) (tmp1 tmp2 buffer : List Nat) :
    Outcome (Option (List Nat) × Option Err) × Decoder σ :=
  let r := d.Read d.reader (tmp1.take 1)
  let tmp := store tmp1 r.p
  let valueSize : Int := ((tmp.getD 0 0 : Nat) : Int)
  match r.err with
  | some err => (Outcome.returned (none, some err), { d with reader := r.next })
  | none =>
    match Decoder.readDataSegment { d with reader := r.next } valueSize tmp2 buffer with
    | (Outcome.returned (_, some err), d1) => (Outcome.returned (none, some err), d1)
    | (Outcome.returned (data, none), d1) =>
      match UnmarshalBinary (data.getD []) with
      | some err => (Outcome.returned (none, some err), d1)
      | none => (Outcome.returned (some (data.getD []), none), d1)
    | (Outcome.panicked, d1) => (Outcome.panicked, d1)
    | (Outcome.outOfFuel, d1) => (Outcome.outOfFuel, d1)

def Decoder.UnmarshalDataSegment {σ : Type} (d : Decoder σ) (size : Int)
    (destination : BinaryUnmarshaler) (tmp buffer : List Nat) :
    Outcome (Option Err) × Decoder σ :=
  match d.GetDataSegment size tmp buffer with
  | (Outcome.returned (_, some err), d1) => (Outcome.returned (some err), d1)
  | (Outcome.returned (data, none), d1) =>
    (Outcome.returned (destination.UnmarshalBinary (data.getD [])), d1)
  | (Outcome.panicked, d1) => (Outcome.panicked, d1)
  | (Outcome.outOfFuel, d1) => (Outcome.outOfFuel, d1)

def Decoder.UnmarshalDataSegmentWithByteHeader {σ : Type} (d : Decoder σ)
    (destination : BinaryUnmarshaler) (tmp1 tmp2 buffer : List Nat) :
    Outcome (Option Err) × Decoder σ :=
  match d.GetDataSegmentWithByteHeader tmp1 tmp2 buffer with
  | (Outcome.returned (_, some err), d1) => (Outcome.returned (some err), d1)
  | (Outcome.returned (data, none), d1) =>
    (Outcome.returned (destination.UnmarshalBinary (data.getD [])), d1)
  | (Outcome.panicked, d1) => (Outcome.panicked, d1)
  | (Outcome.outOfFuel, d1) => (Outcome.outOfFuel, d1)

def Decoder.UnmarshalDataSegmentWith2BytesHeader {σ : Type} (d : Decoder σ)
    (destination : BinaryUnmarshaler) (tmp1 tmp2 buffer : List Nat) :
    Outcome (Option Err) × Decoder σ :=
  match d.GetDataSegmentWith2BytesHeader tmp1 tmp2 buffer with
  | (Outcome.returned (_, some err), d1) => (Outcome.returned (some err), d1)
  | (Outcome.returned (data, none), d1) =>
    (Outcome.returned (destination.UnmarshalBinary (data.getD [])), d1)
  | (Outcome.panicked, d1) => (Outcome.panicked, d1)
  | (Outcome.outOfFuel, d1) => (Outcome.outOfFuel, d1)

/-! ## Sequences of encoder operations -/

/-- One call of a method of the encoder that writes: a `Put*` call or a
`Marshall*` call, with its argument. -/
inductive WriteCall where
  | put (c : PutCall)
  | marshallVariadicDataWith2BytesHeader (s : BinaryMarshaler)
  | marshallVariadicDataWithByteHeader (s : BinaryMarshaler)
  | marshallFixedSizeDataSegment (s : BinaryMarshaler)

/-- Perform one writing call. -/
def Encoder.write (e : Encoder) : WriteCall → Encoder × Option Err
  | .put c => e.call c
  | .marshallVariadicDataWith2BytesHeader s => e.MarshallVariadicDataWith2BytesHeader s
  | .marshallVariadicDataWithByteHeader s => e.MarshallVariadicDataWithByteHeader s
  | .marshallFixedSizeDataSegment s => e.MarshallFixedSizeDataSegment s

/-- The error returned by the `MarshalBinary` method of the argument of a
writing call, `none` when the call has no such argument. -/
def WriteCall.marshalError : WriteCall → Option Err
  | .put (.timeWithByte8Header value) => value.MarshalBinary.2
  | .put _ => none
  | .marshallVariadicDataWith2BytesHeader s => s.MarshalBinary.2
  | .marshallVariadicDataWithByteHeader s => s.MarshalBinary.2
  | .marshallFixedSizeDataSegment s => s.MarshalBinary.2

/-- One call of any method of the encoder. -/
inductive EncoderOp where
  | write (w : WriteCall)
  | collectDataAndReleaseBuffers

/-- The encoder after one call of any of its methods. -/
def Encoder.perform (e : Encoder) : EncoderOp → Encoder
  | .write w => (e.write w).1
  | .collectDataAndReleaseBuffers => e.CollectDataAndReleaseBuffers.2

/-- The encoder after a sequence of calls, performed in order. -/
def Encoder.performAll (e : Encoder) : List EncoderOp → Encoder
  | [] => e
  | op :: ops => (e.perform op).performAll ops

/-! ## Observing the reads of a source -/

/-- One call of `Read` as seen from outside: the length of the slice it was
given, the count and the error it returned. -/
structure ReadEvent where
  requested : Nat
  n : Int
  err : Option Err
  deriving DecidableEq

/-- The reader `Read` with a log of its calls: it behaves as `Read` and
appends one `ReadEvent` per call to the log kept next to the reader state. -/
def tracedRead {σ : Type} (Read : σ → List Nat → ReadResult σ)
    (st : σ × List ReadEvent) (p : List Nat) : ReadResult (σ × List ReadEvent) :=
  let r := Read st.1 p
  { p := r.p, n := r.n, err := r.err,
    next := (r.next, st.2 ++ [{ requested := p.length, n := r.n, err := r.err }]) }

/-- A read that `readDataSegment` accepts: no error and as many bytes as were
requested. -/
def ReadEvent.complete (ev : ReadEvent) : Prop :=
  ev.err = none ∧ ev.n = (ev.requested : Int)

/-- The reads of one run of the loop of `readDataSegment` for `size`, started
with `bytesProcessed` bytes processed, and the result of the run: every read
is issued with `bytesProcessed < size` and requests `min 8 (size -
bytesProcessed)` bytes; a complete read adds its count to `bytesProcessed`, a
read that is not complete is the last one and the result is then the nil slice
with the error built from the error of that read; after the last complete
read `bytesProcessed = size` and the result carries data and no error. -/
def LoopTrace (size : Int) : Int → List ReadEvent →
    Outcome (Option (List Nat) × Option Err) → Prop
  | bytesProcessed, [], res =>
    bytesProcessed = size ∧ ∃ data, res = Outcome.returned (some data, none)
  | bytesProcessed, ev :: evs, res =>
    bytesProcessed < size ∧ (ev.requested : Int) = min 8 (size - bytesProcessed) ∧
    ((ev.complete ∧ LoopTrace size (bytesProcessed + ev.n) evs res) ∨
     (¬ ev.complete ∧ evs = [] ∧
       ∃ ctx, res = Outcome.returned (none, some (Errorf ctx ev.err))))

/-! ## The pool after a write that follows finalize -/

/-- The accumulator of an encoder that was finalized and then written to:
`CollectDataAndReleaseBuffers` resets `e.payload` and puts it back in
`payloadBuffersPool` while the encoder keeps the pointer, and the `PutUint8 1`
that follows is not refused, so these bytes are the content of a buffer that
sits in the pool and that the next `payloadBuffersPool.Get()` can hand out. -/
def pooledAfterLateWrite : List Nat :=
  ((NewEncoder [0, 0, 0, 0, 0, 0, 0, 0] []).CollectDataAndReleaseBuffers.2.PutUint8 1).1.payload

/-! ## Arithmetic of the big-endian codec -/

theorem lor_shiftLeft_eq_add (a b k : Nat) (h : a < 2 ^ k) :
    a ||| (b <<< k) = a + b * 2 ^ k := by
  rw [Nat.shiftLeft_eq, Nat.lor_comm, Nat.mul_comm b, ← Nat.mul_add_lt_is_or h]
  omega

theorem bigEndianUint16_put (v : Nat) (h : v < 2 ^ 16) (rest : List Nat) :
    bigEndianUint16 (bigEndianPutUint16 v ++ rest) = v := by
  simp only [bigEndianUint16, bigEndianPutUint16, List.cons_append, List.nil_append,
    List.getD_cons_zero, List.getD_cons_succ, Nat.shiftRight_eq_div_pow]
  rw [lor_shiftLeft_eq_add _ _ 8 (by omega)]
  omega

theorem bigEndianUint32_put (v : Nat) (h : v < 2 ^ 32) (rest : List Nat) :
    bigEndianUint32 (bigEndianPutUint32 v ++ rest) = v := by
  simp only [bigEndianUint32, bigEndianPutUint32, List.cons_append, List.nil_append,
    List.getD_cons_zero, List.getD_cons_succ, Nat.shiftRight_eq_div_pow]
  rw [lor_shiftLeft_eq_add _ _ 8 (by omega), lor_shiftLeft_eq_add _ _ 16 (by omega),
    lor_shiftLeft_eq_add _ _ 24 (by omega)]
  omega

theorem bigEndianUint64_put (v : Nat) (h : v < 2 ^ 64) (rest : List Nat) :
    bigEndianUint64 (bigEndianPutUint64 v ++ rest) = v := by
  simp only [bigEndianUint64, bigEndianPutUint64, List.cons_append, List.nil_append,
    List.getD_cons_zero, List.getD_cons_succ, Nat.shiftRight_eq_div_pow]
  rw [lor_shiftLeft_eq_add _ _ 8 (by omega), lor_shiftLeft_eq_add _ _ 16 (by omega),
    lor_shiftLeft_eq_add _ _ 24 (by omega), lor_shiftLeft_eq_add _ _ 32 (by omega),
    lor_shiftLeft_eq_add _ _ 40 (by omega), lor_shiftLeft_eq_add _ _ 48 (by omega),
    lor_shiftLeft_eq_add _ _ 56 (by omega)]
  omega

/-! ## The in-memory reader -/

theorem store_full (buf bs : List Nat) (h : buf.length ≤ bs.length) : store buf bs = bs := by
  simp [store, List.drop_eq_nil_of_le h]

theorem take_store (buf bs : List Nat) : (store buf bs).take bs.length = bs := by
  simp [store]

theorem BytesReader.Read_full (s : List Nat) (i : Nat) (b : List Nat)
    (hpos : 0 < b.length) (h : i + b.length ≤ s.length) :
    BytesReader.Read ⟨s, i⟩ b =
      { p := (s.drop i).take b.length, n := (b.length : Int), err := none,
        next := ⟨s, i + b.length⟩ } := by
  have hlt : ¬ (i ≥ s.length) := by omega
  have hmin : min b.length (s.length - i) = b.length := by omega
  simp only [BytesReader.Read, hlt, if_false, hmin]
  congr 1
  apply store_full
  simp [List.length_take, List.length_drop]
  omega

theorem BytesReader.Read_short (s : List Nat) (i : Nat) (b : List Nat)
    (h : s.length < i + b.length) :
    (BytesReader.Read ⟨s, i⟩ b).err ≠ none ∨ (BytesReader.Read ⟨s, i⟩ b).n ≠ (b.length : Int) := by
  by_cases hlt : i ≥ s.length
  · left
    simp [BytesReader.Read, hlt]
  · right
    have hmin : min b.length (s.length - i) = s.length - i := by omega
    simp only [BytesReader.Read, hlt, if_false, hmin]
    omega

theorem readLoop_bytes_ok (fuel : Nat) : ∀ (m : Nat) (size : Int) (s : List Nat) (i : Nat)
    (tmp buffer : List Nat) (bp : Int), tmp.length = 8 → size = bp + (m : Int) → m < fuel →
    m ≤ s.length - i →
    readLoop BytesReader.Read size fuel ⟨s, i⟩ tmp buffer bp =
      (Outcome.returned (some (buffer ++ (s.drop i).take m), none), ⟨s, i + m⟩) := by
  induction fuel with
  | zero => intro m size s i tmp buffer bp _ _ hf; omega
  | succ fuel ih =>
    intro m size s i tmp buffer bp htmp hsize hf hle
    subst hsize
    unfold readLoop
    by_cases hm0 : m = 0
    · subst hm0
      simp
    · have hne : ¬ (bp = bp + (m : Int)) := by omega
      have hdelta : bp + (m : Int) - bp = (m : Int) := by omega
      simp only [hne, if_false, hdelta, Int.toNat_ofNat]
      by_cases h8 : (m : Int) ≥ 8
      · have hread := BytesReader.Read_full s i tmp (by omega) (by omega)
        simp only [h8, if_true, hread, htmp]
        have hst : store tmp (List.take 8 (List.drop i s)) = List.take 8 (List.drop i s) := by
          apply store_full
          simp [List.length_take, List.length_drop]
          omega
        simp only [hst]
        have hrec := ih (m - 8) (bp + (m : Int)) s (i + 8) (List.take 8 (List.drop i s))
          (buffer ++ List.take 8 (List.drop i s)) (bp + ((8 : Nat) : Int))
          (by simp [List.length_take, List.length_drop]; omega) (by omega) (by omega) (by omega)
        simp only [ne_eq, not_true_eq_false, Nat.cast_ofNat, or_self, if_false]
        simp only [Nat.cast_ofNat] at hrec
        rw [hrec]
        have h1 : i + 8 + (m - 8) = i + m := by omega
        have h2 : List.take 8 (List.drop i s) ++ List.take (m - 8) (List.drop (i + 8) s)
            = List.take m (List.drop i s) := by
          have : m = 8 + (m - 8) := by omega
          conv_rhs => rw [this, List.take_add]
          simp [List.drop_drop, Nat.add_comm]
        simp [h1, List.append_assoc, h2]
      · have hneg : ¬ ((m : Int) < 0) := by omega
        have hlen : (List.take m tmp).length = m := by simp [List.length_take]; omega
        have hread := BytesReader.Read_full s i (List.take m tmp) (by omega) (by omega)
        rw [hlen] at hread
        simp only [h8, if_false, hneg, hread]
        have hrec := ih 0 (bp + (m : Int)) s (i + m)
          (store tmp (List.take m (List.drop i s)))
          (buffer ++ List.take m (store tmp (List.take m (List.drop i s)))) (bp + (m : Int))
          (by simp [store, List.length_take, List.length_drop]; omega) (by omega) (by omega)
          (by omega)
        simp only [ne_eq, not_true_eq_false, or_self, if_false]
        rw [hrec]
        have hl : (List.take m (List.drop i s)).length = m := by
          simp [List.length_take, List.length_drop]; omega
        have ht : List.take m (store tmp (List.take m (List.drop i s)))
            = List.take m (List.drop i s) := by
          have := take_store tmp (List.take m (List.drop i s))
          rw [hl] at this
          exact this
        simp [ht]

theorem readLoop_bytes_fail (fuel : Nat) : ∀ (m : Nat) (size : Int) (s : List Nat) (i : Nat)
    (tmp buffer : List Nat) (bp : Int), tmp.length = 8 → size = bp + (m : Int) → m < fuel →
    s.length - i < m →
    ∃ e st, readLoop BytesReader.Read size fuel ⟨s, i⟩ tmp buffer bp =
      (Outcome.returned (none, some e), st) := by
  induction fuel with
  | zero => intro m size s i tmp buffer bp _ _ hf; omega
  | succ fuel ih =>
    intro m size s i tmp buffer bp htmp hsize hf hlt
    subst hsize
    unfold readLoop
    have hne : ¬ (bp = bp + (m : Int)) := by omega
    have hdelta : bp + (m : Int) - bp = (m : Int) := by omega
    simp only [hne, if_false, hdelta, Int.toNat_ofNat]
    by_cases h8 : (m : Int) ≥ 8
    · simp only [h8, if_true]
      by_cases hfull : i + 8 ≤ s.length
      · have hread := BytesReader.Read_full s i tmp (by omega) (by omega)
        simp only [hread, htmp]
        simp only [ne_eq, not_true_eq_false, Nat.cast_ofNat, or_self, if_false]
        have hrec := ih (m - 8) (bp + (m : Int)) s (i + 8)
          (store tmp (List.take 8 (List.drop i s)))
          (buffer ++ store tmp (List.take 8 (List.drop i s))) (bp + 8)
          (by simp [store, List.length_take, List.length_drop]; omega) (by omega) (by omega)
          (by omega)
        exact hrec
      · have hshort := BytesReader.Read_short s i tmp (by omega)
        rw [htmp] at hshort
        simp only [Nat.cast_ofNat] at hshort
        simp only [hshort, if_true]
        exact ⟨_, _, rfl⟩
    · have hneg : ¬ ((m : Int) < 0) := by omega
      have hlen : (List.take m tmp).length = m := by simp [List.length_take]; omega
      have hshort := BytesReader.Read_short s i (List.take m tmp) (by omega)
      rw [hlen] at hshort
      simp only [h8, if_false, hneg, hshort, if_true]
      exact ⟨_, _, rfl⟩

/-- On an in-memory source with at least `k` unread bytes, the scratch buffer
after `Read(tmp[0:k])` starts with those `k` bytes. -/
theorem scratch_after_full_read (s : List Nat) (i k : Nat) (tmp : List Nat)
    (htmp : tmp.length = 8) (hk : 0 < k) (hk8 : k ≤ 8) (h : i + k ≤ s.length) :
    BytesReader.Read ⟨s, i⟩ (tmp.take k) =
      { p := (s.drop i).take k, n := (k : Int), err := none, next := ⟨s, i + k⟩ } ∧
    store tmp ((s.drop i).take k) = (s.drop i).take k ++ tmp.drop k := by
  have hlen : (List.take k tmp).length = k := by simp [List.length_take]; omega
  have hread := BytesReader.Read_full s i (List.take k tmp) (by omega) (by omega)
  rw [hlen] at hread
  refine ⟨hread, ?_⟩
  have hl : (List.take k (List.drop i s)).length = k := by
    simp [List.length_take, List.length_drop]; omega
  simp [store, hl]

theorem GetUint8_bytes (s : List Nat) (i : Nat) (tmp : List Nat) (htmp : tmp.length = 8)
    (h : i + 1 ≤ s.length) :
    Decoder.GetUint8 ⟨BytesReader.Read, ⟨s, i⟩⟩ tmp =
      (((((s.drop i).take 1) ++ tmp.drop 1).getD 0 0, none), ⟨BytesReader.Read, ⟨s, i + 1⟩⟩) := by
  obtain ⟨hread, hst⟩ := scratch_after_full_read s i 1 tmp htmp (by omega) (by omega) h
  simp only [Decoder.GetUint8, hread, hst]

theorem GetUint16_bytes (s : List Nat) (i : Nat) (tmp : List Nat) (htmp : tmp.length = 8)
    (h : i + 2 ≤ s.length) :
    Decoder.GetUint16 ⟨BytesReader.Read, ⟨s, i⟩⟩ tmp =
      ((bigEndianUint16 (((s.drop i).take 2) ++ tmp.drop 2), none),
        ⟨BytesReader.Read, ⟨s, i + 2⟩⟩) := by
  obtain ⟨hread, hst⟩ := scratch_after_full_read s i 2 tmp htmp (by omega) (by omega) h
  simp only [Decoder.GetUint16, hread, hst]

theorem GetUint32_bytes (s : List Nat) (i : Nat) (tmp : List Nat) (htmp : tmp.length = 8)
    (h : i + 4 ≤ s.length) :
    Decoder.GetUint32 ⟨BytesReader.Read, ⟨s, i⟩⟩ tmp =
      ((bigEndianUint32 (((s.drop i).take 4) ++ tmp.drop 4), none),
        ⟨BytesReader.Read, ⟨s, i + 4⟩⟩) := by
  obtain ⟨hread, hst⟩ := scratch_after_full_read s i 4 tmp htmp (by omega) (by omega) h
  simp only [Decoder.GetUint32, hread, hst]

theorem GetUint64_bytes (s : List Nat) (i : Nat) (tmp : List Nat) (htmp : tmp.length = 8)
    (h : i + 8 ≤ s.length) :
    Decoder.GetUint64 ⟨BytesReader.Read, ⟨s, i⟩⟩ tmp =
      ((bigEndianUint64 (((s.drop i).take 8) ++ tmp.drop 8), none),
        ⟨BytesReader.Read, ⟨s, i + 8⟩⟩) := by
  obtain ⟨hread, hst⟩ := scratch_after_full_read s i 8 tmp htmp (by omega) (by omega) h
  simp only [Decoder.GetUint64, hread, hst]

/-- The exact-length read on an in-memory source with enough unread bytes. -/
theorem readDataSegment_bytes_ok (s : List Nat) (i m : Nat) (tmp buffer : List Nat)
    (htmp : tmp.length = 8) (h : m ≤ s.length - i) :
    Decoder.readDataSegment ⟨BytesReader.Read, ⟨s, i⟩⟩ (m : Int) tmp buffer =
      (Outcome.returned (some (buffer ++ (s.drop i).take m), none),
        ⟨BytesReader.Read, ⟨s, i + m⟩⟩) := by
  have hloop := readLoop_bytes_ok (m + 1) m (m : Int) s i tmp buffer 0 htmp (by omega)
    (by omega) h
  simp only [Decoder.readDataSegment, Int.toNat_ofNat, hloop]

/-- The exact-length read on an in-memory source with too few unread bytes. -/
theorem readDataSegment_bytes_fail (s : List Nat) (i m : Nat) (tmp buffer : List Nat)
    (htmp : tmp.length = 8) (h : s.length - i < m) :
    ∃ e d, Decoder.readDataSegment ⟨BytesReader.Read, ⟨s, i⟩⟩ (m : Int) tmp buffer =
      (Outcome.returned (none, some e), d) := by
  obtain ⟨e, st, hloop⟩ := readLoop_bytes_fail (m + 1) m (m : Int) s i tmp buffer 0 htmp
    (by omega) (by omega) h
  exact ⟨e, ⟨BytesReader.Read, st⟩, by simp only [Decoder.readDataSegment, Int.toNat_ofNat, hloop]⟩

/-- Round trip of the fixed-width integers on an encoder whose accumulator
came empty from the pool. For each width 8, 16, 32 and
64 and every value `v` of that width, `PutUintN v` on an encoder made by
`NewEncoder` (empty accumulator) returns no error, and `GetUintN` on a decoder
made by `NewDecoder` over the accumulated bytes followed by `rest` returns `v`
with no error and leaves exactly `rest` unread, whatever the previous contents
`tmpE`, `tmpD` of the pooled scratch buffers. -/
theorem uint_roundtrip_empty_accumulator (tmpE tmpD rest : List Nat) (v8 v16 v32 v64 : Nat)
    (htmpD : tmpD.length = 8)
    (_h8 : v8 < 2 ^ 8) (h16 : v16 < 2 ^ 16) (h32 : v32 < 2 ^ 32) (h64 : v64 < 2 ^ 64) :
    (((NewEncoder tmpE []).PutUint8 v8).2 = none ∧
      ((NewDecoder (((NewEncoder tmpE []).PutUint8 v8).1.payload ++ rest)).GetUint8 tmpD).1
        = (v8, none) ∧
      ((NewDecoder (((NewEncoder tmpE []).PutUint8 v8).1.payload ++ rest)).GetUint8
        tmpD).2.reader.unread = rest) ∧
    (((NewEncoder tmpE []).PutUint16 v16).2 = none ∧
      ((NewDecoder (((NewEncoder tmpE []).PutUint16 v16).1.payload ++ rest)).GetUint16 tmpD).1
        = (v16, none) ∧
      ((NewDecoder (((NewEncoder tmpE []).PutUint16 v16).1.payload ++ rest)).GetUint16
        tmpD).2.reader.unread = rest) ∧
    (((NewEncoder tmpE []).PutUint32 v32).2 = none ∧
      ((NewDecoder (((NewEncoder tmpE []).PutUint32 v32).1.payload ++ rest)).GetUint32 tmpD).1
        = (v32, none) ∧
      ((NewDecoder (((NewEncoder tmpE []).PutUint32 v32).1.payload ++ rest)).GetUint32
        tmpD).2.reader.unread = rest) ∧
    (((NewEncoder tmpE []).PutUint64 v64).2 = none ∧
      ((NewDecoder (((NewEncoder tmpE []).PutUint64 v64).1.payload ++ rest)).GetUint64 tmpD).1
        = (v64, none) ∧
      ((NewDecoder (((NewEncoder tmpE []).PutUint64 v64).1.payload ++ rest)).GetUint64
        tmpD).2.reader.unread = rest) := by
  have e8 : (NewEncoder tmpE []).PutUint8 v8 =
      ({ tmpBuffer := store tmpE [v8], payload := [v8], isReleased := true }, none) := by
    simp [Encoder.PutUint8, NewEncoder, store]
  have e16 : (NewEncoder tmpE []).PutUint16 v16 =
      ({ tmpBuffer := store tmpE (bigEndianPutUint16 v16), payload := bigEndianPutUint16 v16,
         isReleased := true }, none) := by
    simp [Encoder.PutUint16, NewEncoder, store, bigEndianPutUint16]
  have e32 : (NewEncoder tmpE []).PutUint32 v32 =
      ({ tmpBuffer := store tmpE (bigEndianPutUint32 v32), payload := bigEndianPutUint32 v32,
         isReleased := true }, none) := by
    simp [Encoder.PutUint32, NewEncoder, store, bigEndianPutUint32]
  have e64 : (NewEncoder tmpE []).PutUint64 v64 =
      ({ tmpBuffer := store tmpE (bigEndianPutUint64 v64), payload := bigEndianPutUint64 v64,
         isReleased := true }, none) := by
    simp [Encoder.PutUint64, NewEncoder, store, bigEndianPutUint64]
  rw [e8, e16, e32, e64]
  refine ⟨⟨rfl, ?_, ?_⟩, ⟨rfl, ?_, ?_⟩, ⟨rfl, ?_, ?_⟩, ⟨rfl, ?_, ?_⟩⟩
  · rw [NewDecoder, GetUint8_bytes _ _ _ htmpD (by simp)]
    simp
  · rw [NewDecoder, GetUint8_bytes _ _ _ htmpD (by simp)]
    simp [BytesReader.unread]
  · rw [NewDecoder, GetUint16_bytes _ _ _ htmpD (by simp [bigEndianPutUint16])]
    have : List.take 2 (List.drop 0 (bigEndianPutUint16 v16 ++ rest)) = bigEndianPutUint16 v16 := by
      simp [bigEndianPutUint16]
    rw [this, bigEndianUint16_put v16 h16]
  · rw [NewDecoder, GetUint16_bytes _ _ _ htmpD (by simp [bigEndianPutUint16])]
    simp [BytesReader.unread, bigEndianPutUint16]
  · rw [NewDecoder, GetUint32_bytes _ _ _ htmpD (by simp [bigEndianPutUint32])]
    have : List.take 4 (List.drop 0 (bigEndianPutUint32 v32 ++ rest)) = bigEndianPutUint32 v32 := by
      simp [bigEndianPutUint32]
    rw [this, bigEndianUint32_put v32 h32]
  · rw [NewDecoder, GetUint32_bytes _ _ _ htmpD (by simp [bigEndianPutUint32])]
    simp [BytesReader.unread, bigEndianPutUint32]
  · rw [NewDecoder, GetUint64_bytes _ _ _ htmpD (by simp [bigEndianPutUint64])]
    have : List.take 8 (List.drop 0 (bigEndianPutUint64 v64 ++ rest)) = bigEndianPutUint64 v64 := by
      simp [bigEndianPutUint64]
    rw [this, bigEndianUint64_put v64 h64]
  · rw [NewDecoder, GetUint64_bytes _ _ _ htmpD (by simp [bigEndianPutUint64])]
    simp [BytesReader.unread, bigEndianPutUint64]

theorem PutVariadicDataWith2BytesHeader_ok (e : Encoder) (data : List Nat)
    (h : data.length ≤ 65535) :
    e.PutVariadicDataWith2BytesHeader data =
      ({ e with tmpBuffer := store e.tmpBuffer (bigEndianPutUint16 data.length),
                payload := e.payload ++ (bigEndianPutUint16 data.length ++ data) }, none) := by
  have hn : ¬ (data.length > MaxUint16) := by simp [MaxUint16]; omega
  have hmod : data.length % 65536 = data.length := by omega
  simp [Encoder.PutVariadicDataWith2BytesHeader, hn, hmod, store, bigEndianPutUint16]

theorem PutVariadicDataWithByteHeader_ok (e : Encoder) (data : List Nat)
    (h : data.length ≤ 255) :
    e.PutVariadicDataWithByteHeader data =
      ({ e with payload := e.payload ++ (data.length :: data) }, none) := by
  have hn : ¬ (data.length > MaxUint8) := by simp [MaxUint8]; omega
  have hmod : data.length % 256 = data.length := by omega
  simp [Encoder.PutVariadicDataWithByteHeader, hn, hmod]

/-- Decoding a well-formed 2-byte-header field that is followed by `rest`. -/
theorem GetDataSegmentWith2BytesHeader_field (data rest tmp1 tmp2 : List Nat)
    (h : data.length ≤ 65535) (h1 : tmp1.length = 8) (h2 : tmp2.length = 8) :
    (NewDecoder ((bigEndianPutUint16 data.length ++ data) ++ rest)).GetDataSegmentWith2BytesHeader
        tmp1 tmp2 [] =
      (Outcome.returned (some data, none),
        ⟨BytesReader.Read, ⟨(bigEndianPutUint16 data.length ++ data) ++ rest,
          2 + data.length⟩⟩) := by
  have hget := GetUint16_bytes ((bigEndianPutUint16 data.length ++ data) ++ rest) 0 tmp1 h1
    (by simp [bigEndianPutUint16])
  have htake : List.take 2 (List.drop 0 ((bigEndianPutUint16 data.length ++ data) ++ rest))
      = bigEndianPutUint16 data.length := by
    simp [bigEndianPutUint16]
  rw [htake, bigEndianUint16_put data.length (by omega)] at hget
  simp only [Decoder.GetDataSegmentWith2BytesHeader, NewDecoder, hget]
  rw [readDataSegment_bytes_ok _ _ _ _ _ h2 (by simp [bigEndianPutUint16])]
  simp [bigEndianPutUint16]

/-- Decoding a well-formed 1-byte-header field that is followed by `rest`. -/
theorem GetDataSegmentWithByteHeader_field (data rest tmp1 tmp2 : List Nat)
    (h1 : tmp1.length = 8) (h2 : tmp2.length = 8) :
    (NewDecoder ((data.length :: data) ++ rest)).GetDataSegmentWithByteHeader tmp1 tmp2 [] =
      (Outcome.returned (some data, none),
        ⟨BytesReader.Read, ⟨(data.length :: data) ++ rest, 1 + data.length⟩⟩) := by
  have hget := GetUint8_bytes ((data.length :: data) ++ rest) 0 tmp1 h1 (by simp)
  have htake : (List.take 1 (List.drop 0 ((data.length :: data) ++ rest)) ++ List.drop 1 tmp1).getD
      0 0 = data.length := by
    simp
  rw [htake] at hget
  simp only [Decoder.GetDataSegmentWithByteHeader, NewDecoder, hget]
  rw [readDataSegment_bytes_ok _ _ _ _ _ h2 (by simp)]
  simp

/-- Round trip of 2-byte-header fields and strings when the accumulator of
the decoder came empty from the pool. For every `data` of at
most 65535 bytes (the empty sequence and length 65535 included) and every
`rest`, `PutVariadicDataWith2BytesHeader data` returns no error, and a decoder
made by `NewDecoder` over the bytes the call wrote followed by `rest` returns
exactly `data` from `GetDataSegmentWith2BytesHeader`, with no error, and leaves
exactly `rest` unread; the same holds of `PutString` and `GetString`. The
scratch buffers `tmp1`, `tmp2` hold arbitrary bytes, the pooled accumulator
is handed out empty. -/
theorem two_bytes_header_roundtrip_empty_accumulator (e : Encoder) (data rest tmp1 tmp2 : List Nat)
    (hlen : data.length ≤ 65535) (h1 : tmp1.length = 8) (h2 : tmp2.length = 8) :
    (e.PutVariadicDataWith2BytesHeader data).2 = none ∧
    ((NewDecoder ((e.PutVariadicDataWith2BytesHeader data).1.payload.drop e.payload.length
        ++ rest)).GetDataSegmentWith2BytesHeader tmp1 tmp2 []).1
      = Outcome.returned (some data, none) ∧
    ((NewDecoder ((e.PutVariadicDataWith2BytesHeader data).1.payload.drop e.payload.length
        ++ rest)).GetDataSegmentWith2BytesHeader tmp1 tmp2 []).2.reader.unread = rest ∧
    (e.PutString data).2 = none ∧
    ((NewDecoder ((e.PutString data).1.payload.drop e.payload.length
        ++ rest)).GetString tmp1 tmp2 []).1 = Outcome.returned (data, none) ∧
    ((NewDecoder ((e.PutString data).1.payload.drop e.payload.length
        ++ rest)).GetString tmp1 tmp2 []).2.reader.unread = rest := by
  have hput := PutVariadicDataWith2BytesHeader_ok e data hlen
  have hget := GetDataSegmentWith2BytesHeader_field data rest tmp1 tmp2 hlen h1 h2
  have hunread : BytesReader.unread
      ⟨(bigEndianPutUint16 data.length ++ data) ++ rest, 2 + data.length⟩ = rest := by
    have h2 : 2 + data.length = (bigEndianPutUint16 data.length ++ data).length := by
      simp [bigEndianPutUint16]; omega
    rw [BytesReader.unread, h2]
    exact List.drop_left _ _
  simp only [Encoder.PutString, Decoder.GetString, hput, List.drop_left, hget, hunread,
    Option.getD_some, and_self]

/-- Round trip of 1-byte-header fields when the accumulator of the decoder
came empty from the pool. For every `data` of at most 255
bytes and every `rest`, `PutVariadicDataWithByteHeader data` returns no error,
and a decoder made by `NewDecoder` over the bytes the call wrote followed by
`rest` returns exactly `data` from `GetDataSegmentWithByteHeader`, with no
error, and leaves exactly `rest` unread. The scratch buffers `tmp1`, `tmp2`
hold arbitrary bytes, the pooled accumulator is handed out empty. -/
theorem byte_header_roundtrip_empty_accumulator (e : Encoder) (data rest tmp1 tmp2 : List Nat)
    (hlen : data.length ≤ 255) (h1 : tmp1.length = 8) (h2 : tmp2.length = 8) :
    (e.PutVariadicDataWithByteHeader data).2 = none ∧
    ((NewDecoder ((e.PutVariadicDataWithByteHeader data).1.payload.drop e.payload.length
        ++ rest)).GetDataSegmentWithByteHeader tmp1 tmp2 []).1
      = Outcome.returned (some data, none) ∧
    ((NewDecoder ((e.PutVariadicDataWithByteHeader data).1.payload.drop e.payload.length
        ++ rest)).GetDataSegmentWithByteHeader tmp1 tmp2 []).2.reader.unread = rest := by
  have hput := PutVariadicDataWithByteHeader_ok e data hlen
  have hget := GetDataSegmentWithByteHeader_field data rest tmp1 tmp2 h1 h2
  have hunread : BytesReader.unread ⟨(data.length :: data) ++ rest, 1 + data.length⟩ = rest := by
    have h2 : 1 + data.length = (data.length :: data).length := by
      simp; omega
    rw [BytesReader.unread, h2]
    exact List.drop_left _ _
  simp only [hput, List.drop_left, hget, hunread, and_self]

/-- C4: big-endian wire format of the integers. On an encoder whose
`isReleased` flag is `true` (the value `NewEncoder` gives it), for each width
`N` in 8, 16, 32, 64 and each `N`-bit value `v`, `PutUintN v` returns no error
and the accumulator after the call is the accumulator before it followed by
exactly `N/8` bytes, byte `i` being `(v >> 8*(N/8-1-i)) mod 256`; in
particular `PutUint32 0xDEADBEEF` appends `DE AD BE EF`. -/
theorem C4_uint_wire_format (e : Encoder) (v8 v16 v32 v64 : Nat) (he : e.isReleased = true)
    (h8 : v8 < 2 ^ 8) (_h16 : v16 < 2 ^ 16) (_h32 : v32 < 2 ^ 32) (_h64 : v64 < 2 ^ 64) :
    ((e.PutUint8 v8).2 = none ∧
      (e.PutUint8 v8).1.payload =
        e.payload ++ (List.range 1).map (fun i => (v8 >>> (8 * (1 - 1 - i))) % 256)) ∧
    ((e.PutUint16 v16).2 = none ∧
      (e.PutUint16 v16).1.payload =
        e.payload ++ (List.range 2).map (fun i => (v16 >>> (8 * (2 - 1 - i))) % 256)) ∧
    ((e.PutUint32 v32).2 = none ∧
      (e.PutUint32 v32).1.payload =
        e.payload ++ (List.range 4).map (fun i => (v32 >>> (8 * (4 - 1 - i))) % 256)) ∧
    ((e.PutUint64 v64).2 = none ∧
      (e.PutUint64 v64).1.payload =
        e.payload ++ (List.range 8).map (fun i => (v64 >>> (8 * (8 - 1 - i))) % 256)) ∧
    (e.PutUint32 0xDEADBEEF).1.payload = e.payload ++ [0xDE, 0xAD, 0xBE, 0xEF] := by
  have hv8 : v8 % 256 = v8 := by omega
  simp [Encoder.PutUint8, Encoder.PutUint16, Encoder.PutUint32, Encoder.PutUint64, he, store,
    bigEndianPutUint16, bigEndianPutUint32, bigEndianPutUint64, List.range, List.range.loop, hv8]

/-- Witness of C4 on a non-empty accumulator. -/
theorem C4_uint_wire_format_witness :
    (((NewEncoder [9, 9, 9, 9, 9, 9, 9, 9] [1, 2]).PutUint8 0x7F).2 = none ∧
      ((NewEncoder [9, 9, 9, 9, 9, 9, 9, 9] [1, 2]).PutUint8 0x7F).1.payload =
        (NewEncoder [9, 9, 9, 9, 9, 9, 9, 9] [1, 2]).payload ++
          (List.range 1).map (fun i => (0x7F >>> (8 * (1 - 1 - i))) % 256)) ∧
    (((NewEncoder [9, 9, 9, 9, 9, 9, 9, 9] [1, 2]).PutUint16 0x1234).2 = none ∧
      ((NewEncoder [9, 9, 9, 9, 9, 9, 9, 9] [1, 2]).PutUint16 0x1234).1.payload =
        (NewEncoder [9, 9, 9, 9, 9, 9, 9, 9] [1, 2]).payload ++
          (List.range 2).map (fun i => (0x1234 >>> (8 * (2 - 1 - i))) % 256)) ∧
    (((NewEncoder [9, 9, 9, 9, 9, 9, 9, 9] [1, 2]).PutUint32 0xDEADBEEF).2 = none ∧
      ((NewEncoder [9, 9, 9, 9, 9, 9, 9, 9] [1, 2]).PutUint32 0xDEADBEEF).1.payload =
        (NewEncoder [9, 9, 9, 9, 9, 9, 9, 9] [1, 2]).payload ++
          (List.range 4).map (fun i => (0xDEADBEEF >>> (8 * (4 - 1 - i))) % 256)) ∧
    (((NewEncoder [9, 9, 9, 9, 9, 9, 9, 9] [1, 2]).PutUint64 0x0102030405060708).2 = none ∧
      ((NewEncoder [9, 9, 9, 9, 9, 9, 9, 9] [1, 2]).PutUint64 0x0102030405060708).1.payload =
        (NewEncoder [9, 9, 9, 9, 9, 9, 9, 9] [1, 2]).payload ++
          (List.range 8).map (fun i => (0x0102030405060708 >>> (8 * (8 - 1 - i))) % 256)) ∧
    ((NewEncoder [9, 9, 9, 9, 9, 9, 9, 9] [1, 2]).PutUint32 0xDEADBEEF).1.payload =
      (NewEncoder [9, 9, 9, 9, 9, 9, 9, 9] [1, 2]).payload ++ [0xDE, 0xAD, 0xBE, 0xEF] :=
  C4_uint_wire_format (NewEncoder [9, 9, 9, 9, 9, 9, 9, 9] [1, 2]) 0x7F 0x1234 0xDEADBEEF
    0x0102030405060708 rfl (by decide) (by decide) (by decide) (by decide)

/-- C5: wire layout of the length-prefixed fields. For `data1` of length `L`
at most 255, `PutVariadicDataWithByteHeader data1` returns no error and
appends the byte `L` followed by `data1`; for `data2` of length `L` at most
65535, `PutVariadicDataWith2BytesHeader data2` and `PutString data2` return no
error and append the two bytes `L div 256`, `L mod 256` followed by `data2`; so
the accumulator grows by `1 + L`, respectively `2 + L`, bytes, and
`PutString "hi"` appends `00 02 68 69`. -/
theorem C5_length_prefixed_wire_layout (e : Encoder) (data1 data2 : List Nat)
    (h1 : data1.length ≤ 255) (h2 : data2.length ≤ 65535) :
    ((e.PutVariadicDataWithByteHeader data1).2 = none ∧
      (e.PutVariadicDataWithByteHeader data1).1.payload
        = e.payload ++ [data1.length] ++ data1 ∧
      (e.PutVariadicDataWithByteHeader data1).1.payload.length
        = e.payload.length + (1 + data1.length)) ∧
    ((e.PutVariadicDataWith2BytesHeader data2).2 = none ∧
      (e.PutVariadicDataWith2BytesHeader data2).1.payload
        = e.payload ++ [data2.length / 256, data2.length % 256] ++ data2 ∧
      (e.PutVariadicDataWith2BytesHeader data2).1.payload.length
        = e.payload.length + (2 + data2.length)) ∧
    ((e.PutString data2).2 = none ∧
      (e.PutString data2).1.payload
        = e.payload ++ [data2.length / 256, data2.length % 256] ++ data2 ∧
      (e.PutString data2).1.payload.length = e.payload.length + (2 + data2.length)) ∧
    (e.PutString [0x68, 0x69]).1.payload = e.payload ++ [0x00, 0x02, 0x68, 0x69] := by
  have hp1 := PutVariadicDataWithByteHeader_ok e data1 h1
  have hp2 := PutVariadicDataWith2BytesHeader_ok e data2 h2
  have hhi := PutVariadicDataWith2BytesHeader_ok e [0x68, 0x69] (by decide)
  have hdiv : data2.length / 256 % 256 = data2.length / 256 := by omega
  simp only [Encoder.PutString, hp1, hp2, hhi]
  simp [bigEndianPutUint16, Nat.shiftRight_eq_div_pow, hdiv]
  omega

/-- Witness of C5 on two short fields written after two earlier bytes. -/
theorem C5_length_prefixed_wire_layout_witness :
    (((NewEncoder [9, 9, 9, 9, 9, 9, 9, 9] [1, 2]).PutVariadicDataWithByteHeader [5, 6, 7]).2
        = none ∧
      ((NewEncoder [9, 9, 9, 9, 9, 9, 9, 9] [1, 2]).PutVariadicDataWithByteHeader
        [5, 6, 7]).1.payload
        = (NewEncoder [9, 9, 9, 9, 9, 9, 9, 9] [1, 2]).payload ++ [[5, 6, 7].length] ++ [5, 6, 7] ∧
      ((NewEncoder [9, 9, 9, 9, 9, 9, 9, 9] [1, 2]).PutVariadicDataWithByteHeader
        [5, 6, 7]).1.payload.length
        = (NewEncoder [9, 9, 9, 9, 9, 9, 9, 9] [1, 2]).payload.length + (1 + [5, 6, 7].length)) ∧
    (((NewEncoder [9, 9, 9, 9, 9, 9, 9, 9] [1, 2]).PutVariadicDataWith2BytesHeader [8, 9]).2
        = none ∧
      ((NewEncoder [9, 9, 9, 9, 9, 9, 9, 9] [1, 2]).PutVariadicDataWith2BytesHeader
        [8, 9]).1.payload
        = (NewEncoder [9, 9, 9, 9, 9, 9, 9, 9] [1, 2]).payload ++
            [[8, 9].length / 256, [8, 9].length % 256] ++ [8, 9] ∧
      ((NewEncoder [9, 9, 9, 9, 9, 9, 9, 9] [1, 2]).PutVariadicDataWith2BytesHeader
        [8, 9]).1.payload.length
        = (NewEncoder [9, 9, 9, 9, 9, 9, 9, 9] [1, 2]).payload.length + (2 + [8, 9].length)) ∧
    (((NewEncoder [9, 9, 9, 9, 9, 9, 9, 9] [1, 2]).PutString [8, 9]).2 = none ∧
      ((NewEncoder [9, 9, 9, 9, 9, 9, 9, 9] [1, 2]).PutString [8, 9]).1.payload
        = (NewEncoder [9, 9, 9, 9, 9, 9, 9, 9] [1, 2]).payload ++
            [[8, 9].length / 256, [8, 9].length % 256] ++ [8, 9] ∧
      ((NewEncoder [9, 9, 9, 9, 9, 9, 9, 9] [1, 2]).PutString [8, 9]).1.payload.length
        = (NewEncoder [9, 9, 9, 9, 9, 9, 9, 9] [1, 2]).payload.length + (2 + [8, 9].length)) ∧
    ((NewEncoder [9, 9, 9, 9, 9, 9, 9, 9] [1, 2]).PutString [0x68, 0x69]).1.payload
      = (NewEncoder [9, 9, 9, 9, 9, 9, 9, 9] [1, 2]).payload ++ [0x00, 0x02, 0x68, 0x69] :=
  C5_length_prefixed_wire_layout (NewEncoder [9, 9, 9, 9, 9, 9, 9, 9] [1, 2]) [5, 6, 7] [8, 9]
    (by decide) (by decide)

/-- C6: size limits. `PutVariadicDataWithByteHeader data` returns an error that
is `ErrPayloadIsToLarge` (wrapped) exactly when `data` is longer than 255
bytes, and returns no error otherwise; `PutVariadicDataWith2BytesHeader data`
does so exactly when `data` is longer than 65535 bytes; so 255 and 65535 bytes
are accepted while 256 and 65536 bytes are refused. -/
theorem C6_size_limits (e : Encoder) (data : List Nat) :
    ((∃ err, (e.PutVariadicDataWithByteHeader data).2 = some err ∧
        err.Is Err.ErrPayloadIsToLarge = true) ↔ data.length > 255) ∧
    ((e.PutVariadicDataWithByteHeader data).2 = none ↔ data.length ≤ 255) ∧
    ((∃ err, (e.PutVariadicDataWith2BytesHeader data).2 = some err ∧
        err.Is Err.ErrPayloadIsToLarge = true) ↔ data.length > 65535) ∧
    ((e.PutVariadicDataWith2BytesHeader data).2 = none ↔ data.length ≤ 65535) ∧
    (e.PutVariadicDataWithByteHeader (List.replicate 255 0)).2 = none ∧
    (e.PutVariadicDataWithByteHeader (List.replicate 256 0)).2
      = some (Err.wrap ErrContext.valueTooLong Err.ErrPayloadIsToLarge) ∧
    (e.PutVariadicDataWith2BytesHeader (List.replicate 65535 0)).2 = none ∧
    (e.PutVariadicDataWith2BytesHeader (List.replicate 65536 0)).2
      = some (Err.wrap ErrContext.valueTooLong Err.ErrPayloadIsToLarge) := by
  have key1 : ∀ d : List Nat, (e.PutVariadicDataWithByteHeader d).2 =
      if d.length > 255 then some (Err.wrap ErrContext.valueTooLong Err.ErrPayloadIsToLarge)
      else none := by
    intro d
    by_cases h : d.length > 255 <;>
      simp [Encoder.PutVariadicDataWithByteHeader, MaxUint8, Errorf, h]
  have key2 : ∀ d : List Nat, (e.PutVariadicDataWith2BytesHeader d).2 =
      if d.length > 65535 then some (Err.wrap ErrContext.valueTooLong Err.ErrPayloadIsToLarge)
      else none := by
    intro d
    by_cases h : d.length > 65535 <;>
      simp [Encoder.PutVariadicDataWith2BytesHeader, MaxUint16, Errorf, h]
  have his : (Err.wrap ErrContext.valueTooLong Err.ErrPayloadIsToLarge).Is
      Err.ErrPayloadIsToLarge = true := by decide
  refine ⟨?_, ?_, ?_, ?_, ?_, ?_, ?_, ?_⟩
  · rw [key1]
    by_cases h : data.length > 255 <;> simp [h, his]
  · rw [key1]
    by_cases h : data.length > 255 <;> simp [h]
    omega
  · rw [key2]
    by_cases h : data.length > 65535 <;> simp [h, his]
  · rw [key2]
    by_cases h : data.length > 65535 <;> simp [h]
    omega
  · rw [key1, List.length_replicate]; rfl
  · rw [key1, List.length_replicate]; rfl
  · rw [key2, List.length_replicate]; rfl
  · rw [key2, List.length_replicate]; rfl

/-- Every `Put*` call only appends to the accumulator. -/
theorem call_payload_append (e : Encoder) (c : PutCall) :
    (e.call c).1.payload = e.payload ++ e.appended c := by
  have key : ∀ x : Encoder × Option Err, (∃ bs, x.1.payload = e.payload ++ bs) →
      x.1.payload = e.payload ++ x.1.payload.drop e.payload.length := by
    rintro x ⟨bs, hbs⟩
    rw [hbs, List.drop_left]
  apply key
  have h1 : ∀ data, ∃ bs, (e.PutVariadicDataWithByteHeader data).1.payload = e.payload ++ bs := by
    intro data
    by_cases h : data.length > MaxUint8
    · exact ⟨[], by simp [Encoder.PutVariadicDataWithByteHeader, h]⟩
    · exact ⟨[data.length % 256] ++ data, by simp [Encoder.PutVariadicDataWithByteHeader, h]⟩
  have h2 : ∀ data, ∃ bs, (e.PutVariadicDataWith2BytesHeader data).1.payload = e.payload ++ bs := by
    intro data
    by_cases h : data.length > MaxUint16
    · exact ⟨[], by simp [Encoder.PutVariadicDataWith2BytesHeader, h]⟩
    · exact ⟨_, by simp only [Encoder.PutVariadicDataWith2BytesHeader, h, if_false,
        List.append_assoc]; rfl⟩
  cases c with
  | uint8 v =>
    by_cases h : e.isReleased = true
    · exact ⟨_, by simp only [Encoder.call, Encoder.PutUint8, h]; rfl⟩
    · exact ⟨[], by simp [Encoder.call, Encoder.PutUint8, h]⟩
  | uint16 v =>
    by_cases h : e.isReleased = true
    · exact ⟨_, by simp only [Encoder.call, Encoder.PutUint16, h]; rfl⟩
    · exact ⟨[], by simp [Encoder.call, Encoder.PutUint16, h]⟩
  | uint32 v =>
    by_cases h : e.isReleased = true
    · exact ⟨_, by simp only [Encoder.call, Encoder.PutUint32, h]; rfl⟩
    · exact ⟨[], by simp [Encoder.call, Encoder.PutUint32, h]⟩
  | uint64 v =>
    by_cases h : e.isReleased = true
    · exact ⟨_, by simp only [Encoder.call, Encoder.PutUint64, h]; rfl⟩
    · exact ⟨[], by simp [Encoder.call, Encoder.PutUint64, h]⟩
  | string s => exact h2 s
  | variadicDataWithByteHeader data => exact h1 data
  | variadicDataWith2BytesHeader data => exact h2 data
  | bigIntWithByteHeader n =>
    by_cases h : e.isReleased = true
    · simp only [Encoder.call, Encoder.PutBigIntWithByteHeader, h]
      exact h1 _
    · exact ⟨[], by simp [Encoder.call, Encoder.PutBigIntWithByteHeader, h]⟩
  | timeWithByte8Header t =>
    by_cases h : e.isReleased = true
    · simp only [Encoder.call, Encoder.PutTimeWithByte8Header, h]
      rcases hm : t.MarshalBinary with ⟨bin, _ | err⟩
      · exact h1 _
      · exact ⟨[], by simp⟩
    · exact ⟨[], by simp [Encoder.call, Encoder.PutTimeWithByte8Header, h]⟩
  | fixedSizeDataSegment data =>
    exact ⟨data, by simp [Encoder.call, Encoder.PutFixedSizeDataSegment]⟩

/-- The accumulator after a sequence of calls is the accumulator before it
followed by what each call appended, in call order. -/
theorem calls_payload (cs : List PutCall) : ∀ e : Encoder,
    (e.calls cs).payload = e.payload ++ (e.appendedTrace cs).flatten := by
  induction cs with
  | nil => intro e; simp [Encoder.calls, Encoder.appendedTrace]
  | cons c cs ih =>
    intro e
    simp only [Encoder.calls, Encoder.appendedTrace, List.flatten_cons]
    rw [ih, call_payload_append e c, List.append_assoc]

/-- Finalize returns the fields in call order, and the decoder reads them back
when its accumulator came empty from the pool. For every sequence `cs` of
`Put*` calls made on an encoder created by `NewEncoder` with an empty
accumulator, `CollectDataAndReleaseBuffers` returns exactly the concatenation,
in call order, of the bytes appended by each call, and leaves the accumulator
empty; `PutUint8 7`, `PutString "ok"`, `CollectDataAndReleaseBuffers` returns
`07 00 02 6F 6B`, and `GetUint8` then `GetString` on those bytes yield `7` and
`"ok"`, whatever the contents of the scratch buffers. -/
theorem collect_in_call_order_empty_accumulator (tmp : List Nat) (cs : List PutCall)
    (tmpA tmpB tmpC : List Nat) (hA : tmpA.length = 8) (hB : tmpB.length = 8)
    (hC : tmpC.length = 8) :
    ((NewEncoder tmp []).calls cs).CollectDataAndReleaseBuffers.1
      = ((NewEncoder tmp []).appendedTrace cs).flatten ∧
    ((NewEncoder tmp []).calls cs).CollectDataAndReleaseBuffers.2.payload = [] ∧
    ((NewEncoder tmp []).calls
        [PutCall.uint8 7, PutCall.string [0x6F, 0x6B]]).CollectDataAndReleaseBuffers.1
      = [0x07, 0x00, 0x02, 0x6F, 0x6B] ∧
    ((NewDecoder [0x07, 0x00, 0x02, 0x6F, 0x6B]).GetUint8 tmpA).1 = (7, none) ∧
    (((NewDecoder [0x07, 0x00, 0x02, 0x6F, 0x6B]).GetUint8 tmpA).2.GetString tmpB tmpC []).1
      = Outcome.returned ([0x6F, 0x6B], none) := by
  refine ⟨?_, rfl, ?_, ?_, ?_⟩
  · simp [Encoder.CollectDataAndReleaseBuffers, calls_payload, NewEncoder]
  · simp [Encoder.CollectDataAndReleaseBuffers, Encoder.calls, Encoder.call, Encoder.PutUint8,
      Encoder.PutString, Encoder.PutVariadicDataWith2BytesHeader, NewEncoder, store,
      bigEndianPutUint16, MaxUint16]
  · rw [NewDecoder, GetUint8_bytes _ _ _ hA (by simp)]
    simp
  · rw [NewDecoder, GetUint8_bytes _ _ _ hA (by simp)]
    have hget := GetUint16_bytes [0x07, 0x00, 0x02, 0x6F, 0x6B] 1 tmpB hB (by simp)
    have htake : List.take 2 (List.drop 1 [0x07, 0x00, 0x02, 0x6F, 0x6B])
        = bigEndianPutUint16 2 := by decide
    rw [htake, bigEndianUint16_put 2 (by decide)] at hget
    have hread := readDataSegment_bytes_ok [0x07, 0x00, 0x02, 0x6F, 0x6B] 3 2 tmpC [] hC
      (by simp)
    simp only [Decoder.GetString, Decoder.GetDataSegmentWith2BytesHeader, hget]
    simp only [Nat.reduceAdd, Nat.cast_ofNat] at hread ⊢
    rw [hread]
    simp

/-- Exact-length read on an in-memory source when the accumulator came empty
from the pool. For a decoder over the
in-memory source `s` with read index `i` (so `r = len s - i` bytes are unread)
and every `size ≥ 0`, `GetDataSegment size` returns no error if and only if
`size ≤ r`; then it returns exactly the next `size` bytes, a result of length
`size`, and advances the read index by `size`; otherwise it returns a non-nil
error together with the nil slice. The scratch buffer `tmp` holds arbitrary
bytes, the pooled accumulator is handed out empty. -/
theorem exact_length_read_empty_accumulator (s : List Nat) (i : Nat) (size : Int) (tmp : List Nat)
    (hsize : 0 ≤ size) (htmp : tmp.length = 8) :
    ((∃ data, (Decoder.GetDataSegment ⟨BytesReader.Read, ⟨s, i⟩⟩ size tmp []).1
        = Outcome.returned (data, none)) ↔
      size ≤ ((BytesReader.unread ⟨s, i⟩).length : Int)) ∧
    (size ≤ ((BytesReader.unread ⟨s, i⟩).length : Int) →
      (Decoder.GetDataSegment ⟨BytesReader.Read, ⟨s, i⟩⟩ size tmp []).1
        = Outcome.returned (some ((BytesReader.unread ⟨s, i⟩).take size.toNat), none) ∧
      (((BytesReader.unread ⟨s, i⟩).take size.toNat).length : Int) = size ∧
      (Decoder.GetDataSegment ⟨BytesReader.Read, ⟨s, i⟩⟩ size tmp []).2.reader
        = ⟨s, i + size.toNat⟩) ∧
    (((BytesReader.unread ⟨s, i⟩).length : Int) < size →
      ∃ err, (Decoder.GetDataSegment ⟨BytesReader.Read, ⟨s, i⟩⟩ size tmp []).1
        = Outcome.returned (none, some err)) := by
  obtain ⟨m, rfl⟩ := Int.eq_ofNat_of_zero_le hsize
  have hlen : (BytesReader.unread ⟨s, i⟩).length = s.length - i := by
    simp [BytesReader.unread]
  have hok : (m : Int) ≤ ((BytesReader.unread ⟨s, i⟩).length : Int) →
      (Decoder.GetDataSegment ⟨BytesReader.Read, ⟨s, i⟩⟩ (m : Int) tmp []).1
        = Outcome.returned (some ((BytesReader.unread ⟨s, i⟩).take (m : Int).toNat), none) ∧
      (((BytesReader.unread ⟨s, i⟩).take (m : Int).toNat).length : Int) = (m : Int) ∧
      (Decoder.GetDataSegment ⟨BytesReader.Read, ⟨s, i⟩⟩ (m : Int) tmp []).2.reader
        = ⟨s, i + (m : Int).toNat⟩ := by
    intro h
    have hm : m ≤ s.length - i := by omega
    rw [Decoder.GetDataSegment, readDataSegment_bytes_ok s i m tmp [] htmp hm]
    refine ⟨by simp [BytesReader.unread], ?_, by simp⟩
    simp only [Int.toNat_ofNat, List.length_take, hlen]
    omega
  have hfail : ((BytesReader.unread ⟨s, i⟩).length : Int) < (m : Int) →
      ∃ err, (Decoder.GetDataSegment ⟨BytesReader.Read, ⟨s, i⟩⟩ (m : Int) tmp []).1
        = Outcome.returned (none, some err) := by
    intro h
    have hm : s.length - i < m := by omega
    obtain ⟨e, d, hd⟩ := readDataSegment_bytes_fail s i m tmp [] htmp hm
    exact ⟨e, by rw [Decoder.GetDataSegment, hd]⟩
  refine ⟨⟨?_, fun h => ⟨_, (hok h).1⟩⟩, hok, hfail⟩
  rintro ⟨data, hdata⟩
  by_contra hnot
  obtain ⟨err, herr⟩ := hfail (by omega)
  rw [herr] at hdata
  simp at hdata

/-- C9, evaluated where the code departs from it: `PutString "hi"` writes
`00 02 68 69`; on the proper prefix `00` of those bytes, with a scratch buffer
fresh from the pool (all zero), `GetUint16` reads one byte, reports no error
and yields length 0, so `GetDataSegmentWith2BytesHeader` returns the empty
slice and `GetString` the empty string, both with a nil error, instead of
failing. -/
theorem C9_truncated_header_accepted :
    ((NewEncoder [0, 0, 0, 0, 0, 0, 0, 0] []).PutString [0x68, 0x69]).1.payload
      = [0x00, 0x02, 0x68, 0x69] ∧
    [0x00] = List.take 1 [0x00, 0x02, 0x68, 0x69] ∧
    ((NewDecoder [0x00]).GetUint16 [0, 0, 0, 0, 0, 0, 0, 0]).1 = (0, none) ∧
    ((NewDecoder [0x00]).GetDataSegmentWith2BytesHeader [0, 0, 0, 0, 0, 0, 0, 0]
        [0, 0, 0, 0, 0, 0, 0, 0] []).1 = Outcome.returned (some [], none) ∧
    ((NewDecoder [0x00]).GetString [0, 0, 0, 0, 0, 0, 0, 0]
        [0, 0, 0, 0, 0, 0, 0, 0] []).1 = Outcome.returned ([], none) := by
  decide

/-- C10, evaluated where the code departs from it: with fewer unread bytes
than the width needs (but at least one), `GetUint16`, `GetUint32` and
`GetUint64` return a nil error and a value whose low bytes are the stale
contents of the scratch buffer; only an exhausted source gives `io.EOF`. -/
theorem C10_short_read_returns_value :
    ((NewDecoder [0x12]).GetUint16
        [0xA0, 0xA1, 0xA2, 0xA3, 0xA4, 0xA5, 0xA6, 0xA7]).1 = (0x12A1, none) ∧
    ((NewDecoder [0x12, 0x34, 0x56]).GetUint32
        [0xA0, 0xA1, 0xA2, 0xA3, 0xA4, 0xA5, 0xA6, 0xA7]).1 = (0x123456A3, none) ∧
    ((NewDecoder [0x01, 0x02, 0x03, 0x04, 0x05, 0x06, 0x07]).GetUint64
        [0xA0, 0xA1, 0xA2, 0xA3, 0xA4, 0xA5, 0xA6, 0xA7]).1 = (0x01020304050607A7, none) ∧
    ((NewDecoder []).GetUint16 [0xA0, 0xA1, 0xA2, 0xA3, 0xA4, 0xA5, 0xA6, 0xA7]).1
      = (0, some Err.EOF) := by
  decide

/-! ## Big integers -/

theorem foldl_bytes_acc (l : List Nat) (a : Nat) :
    l.foldl (fun acc b => acc * 256 + b) a
      = a * 256 ^ l.length + l.foldl (fun acc b => acc * 256 + b) 0 := by
  induction l generalizing a with
  | nil => simp
  | cons b l ih =>
    simp only [List.foldl_cons, List.length_cons]
    rw [ih (a * 256 + b), ih (0 * 256 + b)]
    ring

/-- With enough fuel, the bytes computed for `n` in front of `acc` denote
`n * 256 ^ acc.length` plus what `acc` denotes. -/
theorem magnitudeBytes_value (fuel : Nat) : ∀ (n : Nat) (acc : List Nat), n ≤ fuel →
    (magnitudeBytes fuel n acc).foldl (fun a b => a * 256 + b) 0
      = n * 256 ^ acc.length + acc.foldl (fun a b => a * 256 + b) 0 := by
  induction fuel with
  | zero =>
    intro n acc h
    have : n = 0 := by omega
    subst this
    simp [magnitudeBytes]
  | succ fuel ih =>
    intro n acc h
    by_cases hn : n = 0
    · subst hn
      simp [magnitudeBytes]
    · simp only [magnitudeBytes, hn, if_false]
      rw [ih (n / 256) (n % 256 :: acc) (by omega)]
      simp only [List.length_cons, List.foldl_cons]
      rw [foldl_bytes_acc acc (0 * 256 + n % 256)]
      have hdm : n = 256 * (n / 256) + n % 256 := (Nat.div_add_mod n 256).symm
      rw [pow_succ]
      generalize hq : n / 256 = q at hdm ⊢
      generalize hr : n % 256 = r at hdm ⊢
      generalize 256 ^ acc.length = P
      generalize List.foldl (fun a b => a * 256 + b) 0 acc = V
      rw [hdm]
      ring

/-- With enough fuel, a magnitude below `256 ^ k` takes at most `k` bytes. -/
theorem magnitudeBytes_length (fuel : Nat) : ∀ (n k : Nat) (acc : List Nat), n ≤ fuel →
    n < 256 ^ k → (magnitudeBytes fuel n acc).length ≤ k + acc.length := by
  induction fuel with
  | zero =>
    intro n k acc h _
    simp [magnitudeBytes]
  | succ fuel ih =>
    intro n k acc h hk
    by_cases hn : n = 0
    · subst hn
      simp [magnitudeBytes]
    · simp only [magnitudeBytes, hn, if_false]
      cases k with
      | zero => simp at hk; omega
      | succ k =>
        have hq : n / 256 < 256 ^ k := by
          rw [pow_succ] at hk
          exact Nat.div_lt_of_lt_mul (by rw [Nat.mul_comm]; exact hk)
        have := ih (n / 256) k (n % 256 :: acc) (by omega) hq
        simp only [List.length_cons] at this
        omega

theorem bigIntSetBytes_bigIntBytes (n : Int) : bigIntSetBytes (bigIntBytes n) = (n.natAbs : Int) := by
  simp [bigIntSetBytes, bigIntBytes, magnitudeBytes_value n.natAbs n.natAbs [] (Nat.le_refl _)]

theorem bigIntBytes_length (n : Int) (h : n.natAbs < 2 ^ 2040) : (bigIntBytes n).length ≤ 255 := by
  have h256 : n.natAbs < 256 ^ 255 := by
    have : (256 : Nat) ^ 255 = 2 ^ 2040 := by norm_num
    omega
  have := magnitudeBytes_length n.natAbs n.natAbs 255 [] (Nat.le_refl _) h256
  simpa using this

/-- Decoding a well-formed big-integer field that is followed by `rest`. -/
theorem GetBigIntWithByteHeader_field (data rest tmp1 tmp2 : List Nat)
    (h1 : tmp1.length = 8) (h2 : tmp2.length = 8) :
    (NewDecoder ((data.length :: data) ++ rest)).GetBigIntWithByteHeader tmp1 tmp2 [] =
      (Outcome.returned (some (bigIntSetBytes data), none),
        ⟨BytesReader.Read, ⟨(data.length :: data) ++ rest, 1 + data.length⟩⟩) := by
  obtain ⟨hread, hst⟩ := scratch_after_full_read ((data.length :: data) ++ rest) 0 1 tmp1 h1
    (by omega) (by omega) (by simp)
  have hseg := readDataSegment_bytes_ok ((data.length :: data) ++ rest) (0 + 1) data.length
    tmp2 [] h2 (by simp)
  simp only [Decoder.GetBigIntWithByteHeader, NewDecoder, hread, hst]
  simp only [List.drop_zero, List.cons_append, List.take_succ_cons, List.take_zero,
    List.getD_cons_zero]
  simp only [List.cons_append] at hseg
  rw [hseg]
  simp [Nat.add_comm]

/-- The big-integer round trip drops the sign, when the accumulator of the
decoder came empty from the pool. For every integer `n`
with `|n| < 2^2040` (magnitude of at most 255 bytes, 0 included) and every
`rest`, `PutBigIntWithByteHeader n` on an encoder whose `isReleased` flag is
`true` (the value `NewEncoder` gives it) returns no error, and
`GetBigIntWithByteHeader` on a decoder made by `NewDecoder` over the written
bytes followed by `rest` returns `|n|` with no error and leaves `rest` unread;
so the decoded value is `n` exactly when `n` is non-negative. The scratch
buffers hold arbitrary bytes, the pooled accumulator is handed out empty. -/
theorem bigint_roundtrip_empty_accumulator (e : Encoder) (n : Int) (rest tmp1 tmp2 : List Nat)
    (he : e.isReleased = true) (hn : n.natAbs < 2 ^ 2040)
    (h1 : tmp1.length = 8) (h2 : tmp2.length = 8) :
    (e.PutBigIntWithByteHeader n).2 = none ∧
    ((NewDecoder ((e.PutBigIntWithByteHeader n).1.payload.drop e.payload.length
        ++ rest)).GetBigIntWithByteHeader tmp1 tmp2 []).1
      = Outcome.returned (some (n.natAbs : Int), none) ∧
    ((NewDecoder ((e.PutBigIntWithByteHeader n).1.payload.drop e.payload.length
        ++ rest)).GetBigIntWithByteHeader tmp1 tmp2 []).2.reader.unread = rest ∧
    (((NewDecoder ((e.PutBigIntWithByteHeader n).1.payload.drop e.payload.length
        ++ rest)).GetBigIntWithByteHeader tmp1 tmp2 []).1
      = Outcome.returned (some n, none) ↔ 0 ≤ n) := by
  have hlen := bigIntBytes_length n hn
  have hput : e.PutBigIntWithByteHeader n =
      ({ e with payload := e.payload ++ ((bigIntBytes n).length :: bigIntBytes n) }, none) := by
    have hg : ¬ ((e.isReleased == false) = true) := by simp [he]
    rw [Encoder.PutBigIntWithByteHeader, if_neg hg]
    exact PutVariadicDataWithByteHeader_ok e (bigIntBytes n) hlen
  have hget := GetBigIntWithByteHeader_field (bigIntBytes n) rest tmp1 tmp2 h1 h2
  rw [bigIntSetBytes_bigIntBytes] at hget
  have hunread : BytesReader.unread
      ⟨((bigIntBytes n).length :: bigIntBytes n) ++ rest, 1 + (bigIntBytes n).length⟩ = rest := by
    have h2 : 1 + (bigIntBytes n).length = ((bigIntBytes n).length :: bigIntBytes n).length := by
      simp; omega
    rw [BytesReader.unread, h2]
    exact List.drop_left _ _
  simp only [hput, List.drop_left, hget, hunread, true_and]
  constructor
  · intro h
    have h3 : (n.natAbs : Int) = n := by
      simpa using h
    omega
  · intro h
    have h3 : (n.natAbs : Int) = n := by omega
    rw [h3]

/-- C12: the fixed-size segment. `PutFixedSizeDataSegment data` returns
`ErrPayloadIsToSmall` if and only if `data` is empty; for non-empty `data` it
returns no error, and the accumulator after the call is the accumulator before
it followed by `data` itself, with no header, so it grows by exactly
`len data` bytes. -/
theorem C12_fixed_size_segment (e : Encoder) (data : List Nat) :
    ((e.PutFixedSizeDataSegment data).2 = some Err.ErrPayloadIsToSmall ↔ data = []) ∧
    (data ≠ [] →
      (e.PutFixedSizeDataSegment data).2 = none ∧
      (e.PutFixedSizeDataSegment data).1.payload = e.payload ++ data ∧
      (e.PutFixedSizeDataSegment data).1.payload.length = e.payload.length + data.length) := by
  cases data with
  | nil => simp [Encoder.PutFixedSizeDataSegment]
  | cons b bs => simp [Encoder.PutFixedSizeDataSegment]

/-- Witness of C12 on three bytes written after two earlier ones. -/
theorem C12_fixed_size_segment_witness :
    ((NewEncoder [9, 9, 9, 9, 9, 9, 9, 9] [1, 2]).PutFixedSizeDataSegment [5, 6, 7]).2 = none ∧
    ((NewEncoder [9, 9, 9, 9, 9, 9, 9, 9] [1, 2]).PutFixedSizeDataSegment [5, 6, 7]).1.payload
      = (NewEncoder [9, 9, 9, 9, 9, 9, 9, 9] [1, 2]).payload ++ [5, 6, 7] ∧
    ((NewEncoder [9, 9, 9, 9, 9, 9, 9, 9] [1, 2]).PutFixedSizeDataSegment
        [5, 6, 7]).1.payload.length
      = (NewEncoder [9, 9, 9, 9, 9, 9, 9, 9] [1, 2]).payload.length + [5, 6, 7].length :=
  (C12_fixed_size_segment (NewEncoder [9, 9, 9, 9, 9, 9, 9, 9] [1, 2]) [5, 6, 7]).2 (by decide)

/-- C14, evaluated where the code departs from it: after
`CollectDataAndReleaseBuffers` the `isReleased` flag is `true`, the value the
guard `isReleased == false` lets through, so `PutUint8`, `PutUint64`,
`PutBigIntWithByteHeader` (guarded) and `PutString`,
`PutVariadicDataWithByteHeader`, `PutFixedSizeDataSegment` (not guarded at
all) return a nil error and append their field to the released accumulator
instead of returning `ErrEncoderIsReleased`. -/
theorem C14_writes_after_finalize_accepted :
    ((NewEncoder [0, 0, 0, 0, 0, 0, 0, 0] []).CollectDataAndReleaseBuffers).2.isReleased = true ∧
    ((((NewEncoder [0, 0, 0, 0, 0, 0, 0, 0] []).CollectDataAndReleaseBuffers).2.PutUint8 1).2
        = none ∧
      (((NewEncoder [0, 0, 0, 0, 0, 0, 0, 0] []).CollectDataAndReleaseBuffers).2.PutUint8
        1).1.payload = [1]) ∧
    ((((NewEncoder [0, 0, 0, 0, 0, 0, 0, 0] []).CollectDataAndReleaseBuffers).2.PutUint64 1).2
        = none ∧
      (((NewEncoder [0, 0, 0, 0, 0, 0, 0, 0] []).CollectDataAndReleaseBuffers).2.PutUint64
        1).1.payload = [0, 0, 0, 0, 0, 0, 0, 1]) ∧
    ((((NewEncoder [0, 0, 0, 0, 0, 0, 0, 0] []).CollectDataAndReleaseBuffers).2.PutBigIntWithByteHeader
        258).2 = none ∧
      (((NewEncoder [0, 0, 0, 0, 0, 0, 0, 0] []).CollectDataAndReleaseBuffers).2.PutBigIntWithByteHeader
        258).1.payload = [2, 1, 2]) ∧
    ((((NewEncoder [0, 0, 0, 0, 0, 0, 0, 0] []).CollectDataAndReleaseBuffers).2.PutString
        [0x68, 0x69]).2 = none ∧
      (((NewEncoder [0, 0, 0, 0, 0, 0, 0, 0] []).CollectDataAndReleaseBuffers).2.PutString
        [0x68, 0x69]).1.payload = [0, 2, 0x68, 0x69]) ∧
    ((((NewEncoder [0, 0, 0, 0, 0, 0, 0, 0]
        []).CollectDataAndReleaseBuffers).2.PutVariadicDataWithByteHeader [7]).2 = none ∧
      (((NewEncoder [0, 0, 0, 0, 0, 0, 0, 0]
        []).CollectDataAndReleaseBuffers).2.PutVariadicDataWithByteHeader [7]).1.payload
        = [1, 7]) ∧
    ((((NewEncoder [0, 0, 0, 0, 0, 0, 0, 0]
        []).CollectDataAndReleaseBuffers).2.PutFixedSizeDataSegment [7]).2 = none ∧
      (((NewEncoder [0, 0, 0, 0, 0, 0, 0, 0]
        []).CollectDataAndReleaseBuffers).2.PutFixedSizeDataSegment [7]).1.payload = [7]) := by
  decide

/-- C16: the `Marshall*` helpers are the `Put*` operations applied to the
encoding of the value. For a value whose `MarshalBinary` returns the bytes `b`
and no error, each helper returns the same error and leaves the same encoder
(so the same accumulated bytes) as the matching `Put*` call on `b`, and an
empty encoding given to `MarshallFixedSizeDataSegment` yields
`ErrPayloadIsToSmall`; for a value whose `MarshalBinary` returns the error
`err`, each helper returns `err` and leaves the encoder as it was. -/
theorem C16_marshall_is_put_of_encoding (e : Encoder) (b : List Nat) (err : Err) :
    e.MarshallVariadicDataWithByteHeader ⟨(b, none)⟩ = e.PutVariadicDataWithByteHeader b ∧
    e.MarshallVariadicDataWith2BytesHeader ⟨(b, none)⟩ = e.PutVariadicDataWith2BytesHeader b ∧
    e.MarshallFixedSizeDataSegment ⟨(b, none)⟩ = e.PutFixedSizeDataSegment b ∧
    (e.MarshallFixedSizeDataSegment ⟨([], none)⟩).2 = some Err.ErrPayloadIsToSmall ∧
    e.MarshallVariadicDataWithByteHeader ⟨(b, some err)⟩ = (e, some err) ∧
    e.MarshallVariadicDataWith2BytesHeader ⟨(b, some err)⟩ = (e, some err) ∧
    e.MarshallFixedSizeDataSegment ⟨(b, some err)⟩ = (e, some err) := by
  simp [Encoder.MarshallVariadicDataWithByteHeader, Encoder.MarshallVariadicDataWith2BytesHeader,
    Encoder.MarshallFixedSizeDataSegment, Encoder.PutFixedSizeDataSegment]

/-- No writing call changes the `isReleased` flag. -/
theorem write_isReleased (e : Encoder) (w : WriteCall) :
    (e.write w).1.isReleased = e.isReleased := by
  have h1 : ∀ data, (e.PutVariadicDataWithByteHeader data).1.isReleased = e.isReleased := by
    intro data
    by_cases h : data.length > MaxUint8 <;> simp [Encoder.PutVariadicDataWithByteHeader, h]
  have h2 : ∀ data, (e.PutVariadicDataWith2BytesHeader data).1.isReleased = e.isReleased := by
    intro data
    by_cases h : data.length > MaxUint16 <;> simp [Encoder.PutVariadicDataWith2BytesHeader, h]
  have h3 : ∀ data, (e.PutFixedSizeDataSegment data).1.isReleased = e.isReleased := by
    intro data
    simp [Encoder.PutFixedSizeDataSegment]
  cases w with
  | put c =>
    cases c with
    | uint8 v =>
      by_cases h : e.isReleased = true <;> simp [Encoder.write, Encoder.call, Encoder.PutUint8, h]
    | uint16 v =>
      by_cases h : e.isReleased = true <;> simp [Encoder.write, Encoder.call, Encoder.PutUint16, h]
    | uint32 v =>
      by_cases h : e.isReleased = true <;> simp [Encoder.write, Encoder.call, Encoder.PutUint32, h]
    | uint64 v =>
      by_cases h : e.isReleased = true <;> simp [Encoder.write, Encoder.call, Encoder.PutUint64, h]
    | string s => exact h2 s
    | variadicDataWithByteHeader data => exact h1 data
    | variadicDataWith2BytesHeader data => exact h2 data
    | bigIntWithByteHeader n =>
      by_cases h : (e.isReleased == false) = true
      · simp [Encoder.write, Encoder.call, Encoder.PutBigIntWithByteHeader, h]
      · rw [Encoder.write, Encoder.call, Encoder.PutBigIntWithByteHeader, if_neg h]
        exact h1 _
    | timeWithByte8Header t =>
      by_cases h : (e.isReleased == false) = true
      · simp [Encoder.write, Encoder.call, Encoder.PutTimeWithByte8Header, h]
      · rw [Encoder.write, Encoder.call, Encoder.PutTimeWithByte8Header, if_neg h]
        rcases hm : t.MarshalBinary with ⟨bin, _ | err⟩
        · exact h1 _
        · rfl
    | fixedSizeDataSegment data => exact h3 data
  | marshallVariadicDataWith2BytesHeader s =>
    rw [Encoder.write, Encoder.MarshallVariadicDataWith2BytesHeader]
    rcases hm : s.MarshalBinary with ⟨bin, _ | err⟩
    · exact h2 _
    · rfl
  | marshallVariadicDataWithByteHeader s =>
    rw [Encoder.write, Encoder.MarshallVariadicDataWithByteHeader]
    rcases hm : s.MarshalBinary with ⟨bin, _ | err⟩
    · exact h1 _
    · rfl
  | marshallFixedSizeDataSegment s =>
    rw [Encoder.write, Encoder.MarshallFixedSizeDataSegment]
    rcases hm : s.MarshalBinary with ⟨bin, _ | err⟩
    · exact h3 _
    · rfl

/-- Every encoder reached from `NewEncoder` has its `isReleased` flag set. -/
theorem performAll_isReleased (ops : List EncoderOp) : ∀ e : Encoder, e.isReleased = true →
    (e.performAll ops).isReleased = true := by
  induction ops with
  | nil => intro e h; exact h
  | cons op ops ih =>
    intro e h
    rw [Encoder.performAll]
    apply ih
    cases op with
    | write w => rw [Encoder.perform, write_isReleased, h]
    | collectDataAndReleaseBuffers => rfl

/-- On an encoder whose flag is set, the error of a writing call is the
payload-too-large error, the payload-too-small error, or the error returned by
the `MarshalBinary` method of the argument. -/
theorem write_error_source (e : Encoder) (w : WriteCall) (he : e.isReleased = true) (err : Err)
    (h : (e.write w).2 = some err) :
    err = Err.wrap ErrContext.valueTooLong Err.ErrPayloadIsToLarge ∨
    err = Err.ErrPayloadIsToSmall ∨ w.marshalError = some err := by
  have h1 : ∀ data, (e.PutVariadicDataWithByteHeader data).2 = some err →
      err = Err.wrap ErrContext.valueTooLong Err.ErrPayloadIsToLarge := by
    intro data
    by_cases hl : data.length > MaxUint8 <;>
      simp [Encoder.PutVariadicDataWithByteHeader, hl, Errorf]
    exact fun h => h.symm
  have h2 : ∀ data, (e.PutVariadicDataWith2BytesHeader data).2 = some err →
      err = Err.wrap ErrContext.valueTooLong Err.ErrPayloadIsToLarge := by
    intro data
    by_cases hl : data.length > MaxUint16 <;>
      simp [Encoder.PutVariadicDataWith2BytesHeader, hl, Errorf]
    exact fun h => h.symm
  have h3 : ∀ data, (e.PutFixedSizeDataSegment data).2 = some err →
      err = Err.ErrPayloadIsToSmall := by
    intro data
    by_cases hl : data.length = 0 <;> simp [Encoder.PutFixedSizeDataSegment, hl]
    exact fun h => h.symm
  have hg : ¬ ((e.isReleased == false) = true) := by simp [he]
  cases w with
  | put c =>
    cases c with
    | uint8 v => simp [Encoder.write, Encoder.call, Encoder.PutUint8, he] at h
    | uint16 v => simp [Encoder.write, Encoder.call, Encoder.PutUint16, he] at h
    | uint32 v => simp [Encoder.write, Encoder.call, Encoder.PutUint32, he] at h
    | uint64 v => simp [Encoder.write, Encoder.call, Encoder.PutUint64, he] at h
    | string s => exact Or.inl (h2 s h)
    | variadicDataWithByteHeader data => exact Or.inl (h1 data h)
    | variadicDataWith2BytesHeader data => exact Or.inl (h2 data h)
    | bigIntWithByteHeader n =>
      rw [Encoder.write, Encoder.call, Encoder.PutBigIntWithByteHeader, if_neg hg] at h
      exact Or.inl (h1 _ h)
    | timeWithByte8Header t =>
      rw [Encoder.write, Encoder.call, Encoder.PutTimeWithByte8Header, if_neg hg] at h
      rcases hm : t.MarshalBinary with ⟨bin, _ | merr⟩
      · rw [hm] at h
        exact Or.inl (h1 _ h)
      · rw [hm] at h
        right; right
        simp only [WriteCall.marshalError, hm]
        exact h
    | fixedSizeDataSegment data => exact Or.inr (Or.inl (h3 data h))
  | marshallVariadicDataWith2BytesHeader s =>
    rw [Encoder.write, Encoder.MarshallVariadicDataWith2BytesHeader] at h
    rcases hm : s.MarshalBinary with ⟨bin, _ | merr⟩
    · rw [hm] at h
      exact Or.inl (h2 _ h)
    · rw [hm] at h
      right; right
      simp only [WriteCall.marshalError, hm]
      exact h
  | marshallVariadicDataWithByteHeader s =>
    rw [Encoder.write, Encoder.MarshallVariadicDataWithByteHeader] at h
    rcases hm : s.MarshalBinary with ⟨bin, _ | merr⟩
    · rw [hm] at h
      exact Or.inl (h1 _ h)
    · rw [hm] at h
      right; right
      simp only [WriteCall.marshalError, hm]
      exact h
  | marshallFixedSizeDataSegment s =>
    rw [Encoder.write, Encoder.MarshallFixedSizeDataSegment] at h
    rcases hm : s.MarshalBinary with ⟨bin, _ | merr⟩
    · rw [hm] at h
      exact Or.inr (Or.inl (h3 _ h))
    · rw [hm] at h
      right; right
      simp only [WriteCall.marshalError, hm]
      exact h

/-- C18: the finalize guard never triggers. In every encoder state reached
from `NewEncoder` by any sequence `ops` of `Put*`, `Marshall*` and
`CollectDataAndReleaseBuffers` calls, the `isReleased` flag is `true`;
`PutUint8/16/32/64` return no error there, and no `Put*` or `Marshall*` call
`w` returns an error that is `ErrEncoderIsReleased`, provided the
`MarshalBinary` method of the value passed to `w`, an external collaborator,
does not itself return that error. -/
theorem C18_guard_never_triggers (tmp payload : List Nat) (ops : List EncoderOp)
    (v8 v16 v32 v64 : Nat) (w : WriteCall)
    (hw : ∀ merr, w.marshalError = some merr → merr.Is Err.ErrEncoderIsReleased = false) :
    ((NewEncoder tmp payload).performAll ops).isReleased = true ∧
    (((NewEncoder tmp payload).performAll ops).PutUint8 v8).2 = none ∧
    (((NewEncoder tmp payload).performAll ops).PutUint16 v16).2 = none ∧
    (((NewEncoder tmp payload).performAll ops).PutUint32 v32).2 = none ∧
    (((NewEncoder tmp payload).performAll ops).PutUint64 v64).2 = none ∧
    (∀ err, (((NewEncoder tmp payload).performAll ops).write w).2 = some err →
      err.Is Err.ErrEncoderIsReleased = false) := by
  have he := performAll_isReleased ops (NewEncoder tmp payload) rfl
  refine ⟨he, ?_, ?_, ?_, ?_, ?_⟩
  · simp [Encoder.PutUint8, he]
  · simp [Encoder.PutUint16, he]
  · simp [Encoder.PutUint32, he]
  · simp [Encoder.PutUint64, he]
  · intro err herr
    rcases write_error_source _ w he err herr with h | h | h
    · subst h; decide
    · subst h; decide
    · exact hw err h

/-- Witness of C18: after a write, a finalize and another write, a further
`PutBigIntWithByteHeader` is not refused. -/
theorem C18_guard_never_triggers_witness :
    ((NewEncoder [9, 9, 9, 9, 9, 9, 9, 9] []).performAll
        [EncoderOp.write (WriteCall.put (PutCall.uint8 7)),
          EncoderOp.collectDataAndReleaseBuffers,
          EncoderOp.write (WriteCall.put (PutCall.string [0x6F, 0x6B]))]).isReleased = true ∧
    (((NewEncoder [9, 9, 9, 9, 9, 9, 9, 9] []).performAll
        [EncoderOp.write (WriteCall.put (PutCall.uint8 7)),
          EncoderOp.collectDataAndReleaseBuffers,
          EncoderOp.write (WriteCall.put (PutCall.string [0x6F, 0x6B]))]).PutUint8 1).2 = none ∧
    (((NewEncoder [9, 9, 9, 9, 9, 9, 9, 9] []).performAll
        [EncoderOp.write (WriteCall.put (PutCall.uint8 7)),
          EncoderOp.collectDataAndReleaseBuffers,
          EncoderOp.write (WriteCall.put (PutCall.string [0x6F, 0x6B]))]).PutUint16 2).2 = none ∧
    (((NewEncoder [9, 9, 9, 9, 9, 9, 9, 9] []).performAll
        [EncoderOp.write (WriteCall.put (PutCall.uint8 7)),
          EncoderOp.collectDataAndReleaseBuffers,
          EncoderOp.write (WriteCall.put (PutCall.string [0x6F, 0x6B]))]).PutUint32 3).2 = none ∧
    (((NewEncoder [9, 9, 9, 9, 9, 9, 9, 9] []).performAll
        [EncoderOp.write (WriteCall.put (PutCall.uint8 7)),
          EncoderOp.collectDataAndReleaseBuffers,
          EncoderOp.write (WriteCall.put (PutCall.string [0x6F, 0x6B]))]).PutUint64 4).2 = none ∧
    (∀ err, (((NewEncoder [9, 9, 9, 9, 9, 9, 9, 9] []).performAll
        [EncoderOp.write (WriteCall.put (PutCall.uint8 7)),
          EncoderOp.collectDataAndReleaseBuffers,
          EncoderOp.write (WriteCall.put (PutCall.string [0x6F, 0x6B]))]).write
          (WriteCall.put (PutCall.bigIntWithByteHeader 5))).2 = some err →
      err.Is Err.ErrEncoderIsReleased = false) :=
  C18_guard_never_triggers [9, 9, 9, 9, 9, 9, 9, 9] []
    [EncoderOp.write (WriteCall.put (PutCall.uint8 7)),
      EncoderOp.collectDataAndReleaseBuffers,
      EncoderOp.write (WriteCall.put (PutCall.string [0x6F, 0x6B]))]
    1 2 3 4 (WriteCall.put (PutCall.bigIntWithByteHeader 5))
    (by simp [WriteCall.marshalError])

/-- C15, evaluated where the code departs from it: for a negative `size` the
loop of `readDataSegment` does not stop at `bytesProcessed == size`, computes
a negative `delta` and slices `tmp[0:delta]`, which panics (slice bounds out
of range); so `GetDataSegment (-1)` and `UnmarshalDataSegment (-1, dest)`
abort instead of returning an error, while size 0 returns an empty result. -/
theorem C15_negative_size_panics :
    ((NewDecoder [1, 2, 3]).GetDataSegment (-1) [0, 0, 0, 0, 0, 0, 0, 0] []).1
      = Outcome.panicked ∧
    ((NewDecoder [1, 2, 3]).UnmarshalDataSegment (-1) ⟨fun _ => none⟩
        [0, 0, 0, 0, 0, 0, 0, 0] []).1 = Outcome.panicked ∧
    ((NewDecoder []).GetDataSegment (-9) [0, 0, 0, 0, 0, 0, 0, 0] []).1 = Outcome.panicked ∧
    ((NewDecoder [1, 2, 3]).GetDataSegment 0 [0, 0, 0, 0, 0, 0, 0, 0] []).1
      = Outcome.returned (some [], none) := by
  decide

theorem bigEndianPutUint16_get (b0 b1 : Nat) (h0 : b0 < 256) (h1 : b1 < 256) (rest : List Nat) :
    bigEndianUint16 (b0 :: b1 :: rest) = b0 * 256 + b1 ∧
    bigEndianPutUint16 (bigEndianUint16 (b0 :: b1 :: rest)) = [b0, b1] := by
  have hv : bigEndianUint16 (b0 :: b1 :: rest) = b0 * 256 + b1 := by
    simp only [bigEndianUint16, List.getD_cons_zero, List.getD_cons_succ]
    rw [lor_shiftLeft_eq_add _ _ 8 (by omega)]
    omega
  refine ⟨hv, ?_⟩
  rw [hv]
  simp only [bigEndianPutUint16, Nat.shiftRight_eq_div_pow]
  congr 1
  · omega
  · congr 1
    omega

/-- What `GetDataSegmentWithByteHeader` does on an in-memory source that has
at least the header byte unread. -/
theorem GetDataSegmentWithByteHeader_bytes (s : List Nat) (i : Nat) (x : Nat) (t : List Nat)
    (tmp1 tmp2 : List Nat) (h1 : tmp1.length = 8) (h2 : tmp2.length = 8)
    (hs : s.drop i = x :: t) :
    (x ≤ t.length →
      Decoder.GetDataSegmentWithByteHeader ⟨BytesReader.Read, ⟨s, i⟩⟩ tmp1 tmp2 [] =
        (Outcome.returned (some (t.take x), none), ⟨BytesReader.Read, ⟨s, i + 1 + x⟩⟩)) ∧
    (t.length < x →
      ∃ e d, Decoder.GetDataSegmentWithByteHeader ⟨BytesReader.Read, ⟨s, i⟩⟩ tmp1 tmp2 [] =
        (Outcome.returned (none, some e), d)) := by
  have hlen : s.length - i = t.length + 1 := by
    have := congrArg List.length hs
    simpa using this
  have ht : s.drop (i + 1) = t := by
    have := congrArg (List.drop 1) hs
    simpa [List.drop_drop, Nat.add_comm] using this
  have hget := GetUint8_bytes s i tmp1 h1 (by omega)
  rw [hs] at hget
  simp only [List.take_succ_cons, List.take_zero, List.cons_append, List.nil_append,
    List.getD_cons_zero] at hget
  constructor
  · intro hx
    simp only [Decoder.GetDataSegmentWithByteHeader, hget]
    rw [readDataSegment_bytes_ok s (i + 1) x tmp2 [] h2 (by omega), ht]
    simp
  · intro hx
    obtain ⟨e, d, hd⟩ := readDataSegment_bytes_fail s (i + 1) x tmp2 [] h2 (by omega)
    exact ⟨e, d, by simp only [Decoder.GetDataSegmentWithByteHeader, hget, hd]⟩

/-- What `GetDataSegmentWith2BytesHeader` does on an in-memory source of bytes
that has at least the two header bytes unread. -/
theorem GetDataSegmentWith2BytesHeader_bytes (s : List Nat) (i : Nat) (x0 x1 : Nat)
    (t : List Nat) (tmp1 tmp2 : List Nat) (h1 : tmp1.length = 8) (h2 : tmp2.length = 8)
    (hx0 : x0 < 256) (hx1 : x1 < 256) (hs : s.drop i = x0 :: x1 :: t) :
    (x0 * 256 + x1 ≤ t.length →
      Decoder.GetDataSegmentWith2BytesHeader ⟨BytesReader.Read, ⟨s, i⟩⟩ tmp1 tmp2 [] =
        (Outcome.returned (some (t.take (x0 * 256 + x1)), none),
          ⟨BytesReader.Read, ⟨s, i + 2 + (x0 * 256 + x1)⟩⟩)) ∧
    (t.length < x0 * 256 + x1 →
      ∃ e d, Decoder.GetDataSegmentWith2BytesHeader ⟨BytesReader.Read, ⟨s, i⟩⟩ tmp1 tmp2 [] =
        (Outcome.returned (none, some e), d)) := by
  have hlen : s.length - i = t.length + 2 := by
    have := congrArg List.length hs
    simpa using this
  have ht : s.drop (i + 2) = t := by
    have := congrArg (List.drop 2) hs
    simpa [List.drop_drop, Nat.add_comm] using this
  have hget := GetUint16_bytes s i tmp1 h1 (by omega)
  rw [hs] at hget
  simp only [List.take_succ_cons, List.take_zero, List.cons_append, List.nil_append] at hget
  rw [(bigEndianPutUint16_get x0 x1 hx0 hx1 _).1] at hget
  constructor
  · intro hx
    simp only [Decoder.GetDataSegmentWith2BytesHeader, hget]
    rw [readDataSegment_bytes_ok s (i + 2) (x0 * 256 + x1) tmp2 [] h2 (by omega), ht]
    simp
  · intro hx
    obtain ⟨e, d, hd⟩ := readDataSegment_bytes_fail s (i + 2) (x0 * 256 + x1) tmp2 [] h2
      (by omega)
    exact ⟨e, d, by simp only [Decoder.GetDataSegmentWith2BytesHeader, hget, hd]⟩

/-- Decode then encode reproduces the consumed bytes when the accumulator of
the decoder came empty from the pool. On an in-memory
source of bytes with at least 1 byte unread on which
`GetDataSegmentWithByteHeader` returns `d1` and no error,
`PutVariadicDataWithByteHeader d1` on a fresh encoder returns no error and the
bytes it accumulates are exactly the bytes of the source between the read
index before the decode and the read index after it; the same holds of
`GetDataSegmentWith2BytesHeader` and `PutVariadicDataWith2BytesHeader` on a
source with at least 2 bytes unread. -/
theorem decode_then_encode_empty_accumulator (s1 : List Nat) (i1 : Nat) (d1 : List Nat)
    (s2 : List Nat) (i2 : Nat) (d2 : List Nat) (tmp1 tmp2 tmpE : List Nat)
    (hb1 : ∀ b ∈ s1, b < 256) (hb2 : ∀ b ∈ s2, b < 256)
    (h1 : tmp1.length = 8) (h2 : tmp2.length = 8)
    (hu1 : i1 + 1 ≤ s1.length) (hu2 : i2 + 2 ≤ s2.length)
    (hd1 : (Decoder.GetDataSegmentWithByteHeader ⟨BytesReader.Read, ⟨s1, i1⟩⟩ tmp1 tmp2 []).1
      = Outcome.returned (some d1, none))
    (hd2 : (Decoder.GetDataSegmentWith2BytesHeader ⟨BytesReader.Read, ⟨s2, i2⟩⟩ tmp1 tmp2 []).1
      = Outcome.returned (some d2, none)) :
    (((NewEncoder tmpE []).PutVariadicDataWithByteHeader d1).2 = none ∧
      ((NewEncoder tmpE []).PutVariadicDataWithByteHeader d1).1.payload
        = (s1.drop i1).take
            ((Decoder.GetDataSegmentWithByteHeader ⟨BytesReader.Read, ⟨s1, i1⟩⟩
              tmp1 tmp2 []).2.reader.i - i1)) ∧
    (((NewEncoder tmpE []).PutVariadicDataWith2BytesHeader d2).2 = none ∧
      ((NewEncoder tmpE []).PutVariadicDataWith2BytesHeader d2).1.payload
        = (s2.drop i2).take
            ((Decoder.GetDataSegmentWith2BytesHeader ⟨BytesReader.Read, ⟨s2, i2⟩⟩
              tmp1 tmp2 []).2.reader.i - i2)) := by
  constructor
  · obtain ⟨x, t, hs⟩ : ∃ x t, s1.drop i1 = x :: t := by
      cases hdrop : s1.drop i1 with
      | nil =>
        have := congrArg List.length hdrop
        simp at this
        omega
      | cons x t => exact ⟨x, t, rfl⟩
    have hx : x < 256 := by
      apply hb1
      apply List.mem_of_mem_drop (n := i1)
      rw [hs]
      exact List.mem_cons_self _ _
    obtain ⟨hok, hfail⟩ := GetDataSegmentWithByteHeader_bytes s1 i1 x t tmp1 tmp2 h1 h2 hs
    by_cases hxt : x ≤ t.length
    · have hres := hok hxt
      rw [hres] at hd1 ⊢
      have hd : d1 = t.take x := by
        simp only [Outcome.returned.injEq, Prod.mk.injEq, Option.some.injEq, and_true] at hd1
        exact hd1.symm
      have hlen : d1.length = x := by
        rw [hd, List.length_take]
        omega
      have hput := PutVariadicDataWithByteHeader_ok (NewEncoder tmpE []) d1 (by omega)
      rw [hput, hs, hlen, hd]
      refine ⟨rfl, ?_⟩
      have : i1 + 1 + x - i1 = x + 1 := by omega
      simp [NewEncoder, this]
    · obtain ⟨e, d, hd⟩ := hfail (by omega)
      rw [hd] at hd1
      simp at hd1
  · obtain ⟨x0, t0, hs0⟩ : ∃ x t, s2.drop i2 = x :: t := by
      cases hdrop : s2.drop i2 with
      | nil =>
        have := congrArg List.length hdrop
        simp at this
        omega
      | cons x t => exact ⟨x, t, rfl⟩
    obtain ⟨x1, t, ht0⟩ : ∃ x t, t0 = x :: t := by
      cases t0 with
      | nil =>
        have := congrArg List.length hs0
        simp at this
        omega
      | cons x t => exact ⟨x, t, rfl⟩
    subst ht0
    have hx0 : x0 < 256 := by
      apply hb2
      apply List.mem_of_mem_drop (n := i2)
      rw [hs0]
      exact List.mem_cons_self _ _
    have hx1 : x1 < 256 := by
      apply hb2
      apply List.mem_of_mem_drop (n := i2)
      rw [hs0]
      exact List.mem_cons_of_mem _ (List.mem_cons_self _ _)
    obtain ⟨hok, hfail⟩ :=
      GetDataSegmentWith2BytesHeader_bytes s2 i2 x0 x1 t tmp1 tmp2 h1 h2 hx0 hx1 hs0
    by_cases hxt : x0 * 256 + x1 ≤ t.length
    · have hres := hok hxt
      rw [hres] at hd2 ⊢
      have hd : d2 = t.take (x0 * 256 + x1) := by
        simp only [Outcome.returned.injEq, Prod.mk.injEq, Option.some.injEq, and_true] at hd2
        exact hd2.symm
      have hlen : d2.length = x0 * 256 + x1 := by
        rw [hd, List.length_take]
        omega
      have hput := PutVariadicDataWith2BytesHeader_ok (NewEncoder tmpE []) d2 (by omega)
      have hhdr : bigEndianPutUint16 (x0 * 256 + x1) = [x0, x1] := by
        have := bigEndianPutUint16_get x0 x1 hx0 hx1 []
        rw [this.1] at this
        exact this.2
      rw [hput, hs0, hlen, hhdr, hd]
      refine ⟨rfl, ?_⟩
      have : i2 + 2 + (x0 * 256 + x1) - i2 = (x0 * 256 + x1) + 2 := by omega
      simp [NewEncoder, this]
    · obtain ⟨e, d, hd⟩ := hfail (by omega)
      rw [hd] at hd2
      simp at hd2

/-! ## The reads issued by the exact-length loop -/

theorem BytesReader.Read_length (r : BytesReader) (b : List Nat) :
    (BytesReader.Read r b).p.length = b.length := by
  by_cases h : r.i ≥ r.s.length
  · simp [BytesReader.Read, h]
  · simp only [BytesReader.Read, h, if_false, store, List.length_append, List.length_take,
      List.length_drop]
    omega

/-- Logging the reads changes neither the result of the loop nor the reader it
leaves behind. -/
theorem readLoop_tracedRead {σ : Type} (Read : σ → List Nat → ReadResult σ) (size : Int)
    (fuel : Nat) : ∀ (st : σ) (log : List ReadEvent) (tmp buffer : List Nat) (bp : Int),
    (readLoop (tracedRead Read) size fuel (st, log) tmp buffer bp).1
      = (readLoop Read size fuel st tmp buffer bp).1 ∧
    (readLoop (tracedRead Read) size fuel (st, log) tmp buffer bp).2.1
      = (readLoop Read size fuel st tmp buffer bp).2 := by
  induction fuel with
  | zero => intro st log tmp buffer bp; simp [readLoop]
  | succ fuel ih =>
    intro st log tmp buffer bp
    simp only [readLoop, tracedRead]
    split_ifs <;> first | exact ⟨rfl, rfl⟩ | exact ih _ _ _ _ _

/-- The reads of a run of the loop, and its result, have the shape described
by `LoopTrace`. -/
theorem readLoop_LoopTrace {σ : Type} (Read : σ → List Nat → ReadResult σ) (size : Int)
    (hslice : ∀ st p, (Read st p).p.length = p.length) (fuel : Nat) :
    ∀ (st : σ) (log : List ReadEvent) (tmp buffer : List Nat) (bp : Int),
    tmp.length = 8 → bp ≤ size → (size - bp).toNat < fuel →
    ∃ evs, (readLoop (tracedRead Read) size fuel (st, log) tmp buffer bp).2.2 = log ++ evs ∧
      LoopTrace size bp evs (readLoop (tracedRead Read) size fuel (st, log) tmp buffer bp).1 := by
  induction fuel with
  | zero => intro st log tmp buffer bp _ _ hf; omega
  | succ fuel ih =>
    intro st log tmp buffer bp htmp hle hf
    by_cases hdone : bp = size
    · refine ⟨[], ?_, ?_⟩
      · simp [readLoop, hdone]
      · simp [readLoop, hdone, LoopTrace]
    · have hlt : bp < size := by omega
      by_cases h8 : size - bp ≥ 8
      · by_cases hgood : (Read st tmp).err = none ∧ (Read st tmp).n = 8
        · have hif : ¬ ((Read st tmp).err ≠ none ∨ (Read st tmp).n ≠ 8) := by
            rw [not_or, not_not, not_not]; exact hgood
          have hlen' : (store tmp (Read st tmp).p).length = 8 := by
            have := hslice st tmp
            simp only [store, List.length_append, List.length_drop, this, htmp]
          obtain ⟨evs, hlog, htrace⟩ := ih (Read st tmp).next
            (log ++ [{ requested := tmp.length, n := (Read st tmp).n, err := (Read st tmp).err }])
            (store tmp (Read st tmp).p) (buffer ++ store tmp (Read st tmp).p)
            (bp + (Read st tmp).n) hlen' (by omega) (by omega)
          refine ⟨{ requested := tmp.length, n := (Read st tmp).n, err := (Read st tmp).err }
            :: evs, ?_, ?_⟩
          · simp only [readLoop, hdone, if_false, h8, if_true, tracedRead, hif]
            rw [hlog, List.append_assoc]
            rfl
          · simp only [readLoop, hdone, if_false, h8, if_true, tracedRead, hif]
            refine ⟨hlt, ?_, Or.inl ⟨?_, htrace⟩⟩
            · simp only [htmp]; omega
            · exact ⟨hgood.1, by simp only [htmp]; omega⟩
        · have hif : (Read st tmp).err ≠ none ∨ (Read st tmp).n ≠ 8 := by
            by_contra hcon
            rw [not_or, not_not, not_not] at hcon
            exact hgood hcon
          refine ⟨[{ requested := tmp.length, n := (Read st tmp).n, err := (Read st tmp).err }],
            ?_, ?_⟩
          · simp only [readLoop, hdone, if_false, h8, if_true, tracedRead, hif]
          · simp only [readLoop, hdone, if_false, h8, if_true, tracedRead, hif]
            refine ⟨hlt, ?_, Or.inr ⟨?_, rfl, ⟨_, rfl⟩⟩⟩
            · simp only [htmp]; omega
            · intro hc
              apply hgood
              refine ⟨hc.1, ?_⟩
              have := hc.2
              simp only [htmp] at this
              omega
      · have hneg : ¬ (size - bp < 0) := by omega
        have hreq : (tmp.take (size - bp).toNat).length = (size - bp).toNat := by
          simp only [List.length_take, htmp]; omega
        by_cases hgood : (Read st (tmp.take (size - bp).toNat)).err = none ∧
            (Read st (tmp.take (size - bp).toNat)).n = size - bp
        · have hif : ¬ ((Read st (tmp.take (size - bp).toNat)).err ≠ none ∨
              (Read st (tmp.take (size - bp).toNat)).n ≠ size - bp) := by
            rw [not_or, not_not, not_not]; exact hgood
          have hlen' : (store tmp (Read st (tmp.take (size - bp).toNat)).p).length = 8 := by
            have := hslice st (tmp.take (size - bp).toNat)
            simp only [store, List.length_append, List.length_drop, this, hreq, htmp]
            omega
          obtain ⟨evs, hlog, htrace⟩ := ih (Read st (tmp.take (size - bp).toNat)).next
            (log ++ [{ requested := (tmp.take (size - bp).toNat).length,
                       n := (Read st (tmp.take (size - bp).toNat)).n,
                       err := (Read st (tmp.take (size - bp).toNat)).err }])
            (store tmp (Read st (tmp.take (size - bp).toNat)).p)
            (buffer ++ (store tmp (Read st (tmp.take (size - bp).toNat)).p).take
              (size - bp).toNat)
            (bp + (Read st (tmp.take (size - bp).toNat)).n) hlen' (by omega) (by omega)
          refine ⟨{ requested := (tmp.take (size - bp).toNat).length,
                    n := (Read st (tmp.take (size - bp).toNat)).n,
                    err := (Read st (tmp.take (size - bp).toNat)).err } :: evs, ?_, ?_⟩
          · simp only [readLoop, hdone, if_false, h8, hneg, tracedRead, hif]
            rw [hlog, List.append_assoc]
            rfl
          · simp only [readLoop, hdone, if_false, h8, hneg, tracedRead, hif]
            refine ⟨hlt, ?_, Or.inl ⟨?_, htrace⟩⟩
            · simp only [hreq]; omega
            · exact ⟨hgood.1, by simp only [hreq]; omega⟩
        · have hif : (Read st (tmp.take (size - bp).toNat)).err ≠ none ∨
              (Read st (tmp.take (size - bp).toNat)).n ≠ size - bp := by
            by_contra hcon
            rw [not_or, not_not, not_not] at hcon
            exact hgood hcon
          refine ⟨[{ requested := (tmp.take (size - bp).toNat).length,
                     n := (Read st (tmp.take (size - bp).toNat)).n,
                     err := (Read st (tmp.take (size - bp).toNat)).err }], ?_, ?_⟩
          · simp only [readLoop, hdone, if_false, h8, hneg, tracedRead, hif, if_true]
          · simp only [readLoop, hdone, if_false, h8, hneg, tracedRead, hif, if_true]
            refine ⟨hlt, ?_, Or.inr ⟨?_, rfl, ⟨_, rfl⟩⟩⟩
            · simp only [hreq]; omega
            · intro hc
              apply hgood
              refine ⟨hc.1, ?_⟩
              have := hc.2
              simp only [hreq] at this
              omega

theorem LoopTrace_returned (size : Int) (evs : List ReadEvent) :
    ∀ (bp : Int) (res : Outcome (Option (List Nat) × Option Err)),
    LoopTrace size bp evs res → ∃ x, res = Outcome.returned x := by
  induction evs with
  | nil =>
    intro bp res h
    obtain ⟨_, data, hres⟩ := h
    exact ⟨_, hres⟩
  | cons ev evs ih =>
    intro bp res h
    obtain ⟨_, _, h3⟩ := h
    rcases h3 with ⟨_, hrest⟩ | ⟨_, _, ctx, hres⟩
    · exact ih _ _ hrest
    · exact ⟨_, hres⟩

theorem LoopTrace_length (size : Int) (evs : List ReadEvent) :
    ∀ (bp : Int) (res : Outcome (Option (List Nat) × Option Err)),
    LoopTrace size bp evs res → bp ≤ size ∧ (evs.length : Int) ≤ (size - bp + 7) / 8 := by
  induction evs with
  | nil =>
    intro bp res h
    obtain ⟨hbp, _⟩ := h
    simp only [List.length_nil]
    omega
  | cons ev evs ih =>
    intro bp res h
    obtain ⟨hlt, hreq, h3⟩ := h
    simp only [List.length_cons]
    rcases h3 with ⟨hc, hrest⟩ | ⟨_, hnil, _⟩
    · obtain ⟨hle, hlen⟩ := ih _ _ hrest
      have hn := hc.2
      push_cast
      omega
    · subst hnil
      simp only [List.length_nil]
      omega

/-- Every read of a run is issued before `size` bytes are processed and
requests `min 8 (size - bytesProcessed)` bytes, the reads before it are all
complete, and a read that is not complete is the last one and decides the
result. -/
theorem LoopTrace_split (size : Int) (evs : List ReadEvent) :
    ∀ (bp : Int) (res : Outcome (Option (List Nat) × Option Err)),
    LoopTrace size bp evs res →
    ∀ (pre : List ReadEvent) (ev : ReadEvent) (post : List ReadEvent), evs = pre ++ ev :: post →
      (∀ e ∈ pre, e.complete) ∧
      bp + (pre.map ReadEvent.n).sum < size ∧
      (ev.requested : Int) = min 8 (size - (bp + (pre.map ReadEvent.n).sum)) ∧
      (¬ ev.complete → post = [] ∧
        ∃ ctx, res = Outcome.returned (none, some (Errorf ctx ev.err))) := by
  induction evs with
  | nil =>
    intro bp res _ pre ev post hsplit
    simp at hsplit
  | cons e0 evs ih =>
    intro bp res h pre ev post hsplit
    obtain ⟨hlt, hreq, h3⟩ := h
    cases pre with
    | nil =>
      simp only [List.nil_append, List.cons.injEq] at hsplit
      obtain ⟨h0, hpost⟩ := hsplit
      subst h0
      subst hpost
      simp only [List.map_nil, List.sum_nil, Int.add_zero]
      refine ⟨by simp, hlt, hreq, ?_⟩
      intro hbad
      rcases h3 with ⟨hc, _⟩ | ⟨_, hnil, hres⟩
      · exact absurd hc hbad
      · exact ⟨hnil, hres⟩
    | cons p0 pre =>
      simp only [List.cons_append, List.cons.injEq] at hsplit
      obtain ⟨h0, hrest⟩ := hsplit
      subst h0
      rcases h3 with ⟨hc, htrace⟩ | ⟨_, hnil, _⟩
      · obtain ⟨hpre, hb, hr, hlast⟩ := ih _ _ htrace pre ev post hrest
        simp only [List.map_cons, List.sum_cons]
        refine ⟨?_, ?_, ?_, hlast⟩
        · intro e he
          rcases List.mem_cons.mp he with h | h
          · rw [h]; exact hc
          · exact hpre e h
        · omega
        · rw [hr]
          congr 2
          omega
      · rw [hnil] at hrest
        simp at hrest

/-- The running count of a run never exceeds `size`. -/
theorem LoopTrace_processed (size : Int) (evs : List ReadEvent) :
    ∀ (bp : Int) (res : Outcome (Option (List Nat) × Option Err)),
    LoopTrace size bp evs res →
    ∀ (pre post : List ReadEvent), evs = pre ++ post → (∀ e ∈ pre, e.complete) →
      bp + (pre.map ReadEvent.n).sum ≤ size := by
  induction evs with
  | nil =>
    intro bp res h pre post hsplit _
    obtain ⟨hbp, _⟩ := h
    have : pre = [] := by
      cases pre with
      | nil => rfl
      | cons p ps => simp at hsplit
    subst this
    simp only [List.map_nil, List.sum_nil]
    omega
  | cons e0 evs ih =>
    intro bp res h pre post hsplit hpre
    obtain ⟨hlt, hreq, h3⟩ := h
    cases pre with
    | nil =>
      simp only [List.map_nil, List.sum_nil]
      omega
    | cons p0 pre =>
      simp only [List.cons_append, List.cons.injEq] at hsplit
      obtain ⟨h0, hrest⟩ := hsplit
      subst h0
      have hc0 : e0.complete := hpre e0 (List.mem_cons_self _ _)
      rcases h3 with ⟨_, htrace⟩ | ⟨hbad, _, _⟩
      · have := ih _ _ htrace pre post hrest (fun e he => hpre e (List.mem_cons_of_mem _ he))
        simp only [List.map_cons, List.sum_cons]
        omega
      · exact absurd hc0 hbad

/-- The log of a run of `readDataSegment` with a non-negative size has the
shape described by `LoopTrace`, and logging does not change the result. -/
theorem readDataSegment_LoopTrace {σ : Type} (Read : σ → List Nat → ReadResult σ) (reader : σ)
    (size : Int) (tmp buffer : List Nat)
    (hslice : ∀ st p, (Read st p).p.length = p.length) (hsize : 0 ≤ size)
    (htmp : tmp.length = 8) :
    LoopTrace size 0
      (Decoder.readDataSegment ⟨tracedRead Read, (reader, [])⟩ size tmp buffer).2.reader.2
      (Decoder.readDataSegment ⟨Read, reader⟩ size tmp buffer).1 := by
  obtain ⟨evs, hlog, htrace⟩ := readLoop_LoopTrace Read size hslice (size.toNat + 1) reader []
    tmp buffer 0 htmp hsize (by omega)
  have heq := (readLoop_tracedRead Read size (size.toNat + 1) reader [] tmp buffer 0).1
  simp only [Decoder.readDataSegment]
  rw [hlog, ← heq]
  simpa using htrace

/-- C17: short reads abort the exact-length read. For every source (any `Read`
function that keeps the length of the slice it is given, returning any count
and any error) and every `size ≥ 0`, take the reads `readDataSegment` issues,
in order: if one of them, `ev`, returns a non-nil error or a count different
from the number of bytes requested (fewer bytes in particular), then no read
follows it, and `readDataSegment` returns the nil slice with a non-nil error;
when `ev` returned the non-nil error `cause`, the returned error wraps
`cause`. -/
theorem C17_short_read_aborts {σ : Type} (Read : σ → List Nat → ReadResult σ) (reader : σ)
    (size : Int) (tmp buffer : List Nat) (pre : List ReadEvent) (ev : ReadEvent)
    (post : List ReadEvent)
    (hslice : ∀ st p, (Read st p).p.length = p.length) (hsize : 0 ≤ size)
    (htmp : tmp.length = 8)
    (hlog : (Decoder.readDataSegment ⟨tracedRead Read, (reader, [])⟩ size tmp
      buffer).2.reader.2 = pre ++ ev :: post)
    (hbad : ev.err ≠ none ∨ ev.n ≠ (ev.requested : Int)) :
    post = [] ∧
    (∃ err, (Decoder.readDataSegment ⟨Read, reader⟩ size tmp buffer).1
      = Outcome.returned (none, some err)) ∧
    (∀ cause, ev.err = some cause →
      ∃ ctx, (Decoder.readDataSegment ⟨Read, reader⟩ size tmp buffer).1
        = Outcome.returned (none, some (Err.wrap ctx cause))) ∧
    (Decoder.readDataSegment ⟨tracedRead Read, (reader, [])⟩ size tmp buffer).1
      = (Decoder.readDataSegment ⟨Read, reader⟩ size tmp buffer).1 := by
  have htrace := readDataSegment_LoopTrace Read reader size tmp buffer hslice hsize htmp
  have hnc : ¬ ev.complete := by
    intro hc
    rcases hbad with h | h
    · exact h hc.1
    · exact h hc.2
  obtain ⟨_, _, _, hlast⟩ := LoopTrace_split size _ 0 _ htrace pre ev post hlog
  obtain ⟨hpost, ctx, hres⟩ := hlast hnc
  refine ⟨hpost, ⟨_, hres⟩, ?_, ?_⟩
  · intro cause hcause
    refine ⟨ctx, ?_⟩
    rw [hres, hcause]
    rfl
  · simp only [Decoder.readDataSegment]
    rw [(readLoop_tracedRead Read size (size.toNat + 1) reader [] tmp buffer 0).1]

/-- Witness of C17: 11 bytes are asked of an in-memory source that holds 3,
the first read of 8 bytes returns 3 and is the only read. -/
theorem C17_short_read_aborts_witness :
    ([] : List ReadEvent) = [] ∧
    (∃ err, (Decoder.readDataSegment ⟨BytesReader.Read, ⟨[1, 2, 3], 0⟩⟩ 11
        [9, 9, 9, 9, 9, 9, 9, 9] []).1 = Outcome.returned (none, some err)) ∧
    (∀ cause, ({ requested := 8, n := 3, err := none } : ReadEvent).err = some cause →
      ∃ ctx, (Decoder.readDataSegment ⟨BytesReader.Read, ⟨[1, 2, 3], 0⟩⟩ 11
        [9, 9, 9, 9, 9, 9, 9, 9] []).1 = Outcome.returned (none, some (Err.wrap ctx cause))) ∧
    (Decoder.readDataSegment ⟨tracedRead BytesReader.Read, (⟨[1, 2, 3], 0⟩, [])⟩ 11
        [9, 9, 9, 9, 9, 9, 9, 9] []).1
      = (Decoder.readDataSegment ⟨BytesReader.Read, ⟨[1, 2, 3], 0⟩⟩ 11
        [9, 9, 9, 9, 9, 9, 9, 9] []).1 :=
  C17_short_read_aborts BytesReader.Read ⟨[1, 2, 3], 0⟩ 11 [9, 9, 9, 9, 9, 9, 9, 9] []
    [] { requested := 8, n := 3, err := none } []
    BytesReader.Read_length (by decide) (by decide) (by decide) (by decide)

/-- C20: the exact-length read loop terminates. For every `size ≥ 0` and every
behaviour of the source (any `Read` function that keeps the length of the
slice it is given), `readDataSegment` returns (it neither panics nor exhausts
the iteration bound of the embedding) after at most `ceil (size / 8)` reads;
each read is issued with `bytesProcessed`, the sum of the counts of the reads
before it, below `size`, and requests `min 8 (size - bytesProcessed)` bytes, a
number between 1 and 8; and `bytesProcessed` never exceeds `size`. -/
theorem C20_read_loop_terminates {σ : Type} (Read : σ → List Nat → ReadResult σ) (reader : σ)
    (size : Int) (tmp buffer : List Nat)
    (hslice : ∀ st p, (Read st p).p.length = p.length) (hsize : 0 ≤ size)
    (htmp : tmp.length = 8) :
    (∃ res, (Decoder.readDataSegment ⟨Read, reader⟩ size tmp buffer).1
      = Outcome.returned res) ∧
    (Decoder.readDataSegment ⟨tracedRead Read, (reader, [])⟩ size tmp buffer).1
      = (Decoder.readDataSegment ⟨Read, reader⟩ size tmp buffer).1 ∧
    (((Decoder.readDataSegment ⟨tracedRead Read, (reader, [])⟩ size tmp
      buffer).2.reader.2.length : Int) ≤ (size + 7) / 8) ∧
    (∀ pre ev post,
      (Decoder.readDataSegment ⟨tracedRead Read, (reader, [])⟩ size tmp buffer).2.reader.2
        = pre ++ ev :: post →
      (∀ e ∈ pre, e.complete) ∧
      (pre.map ReadEvent.n).sum < size ∧
      (ev.requested : Int) = min 8 (size - (pre.map ReadEvent.n).sum) ∧
      1 ≤ ev.requested ∧ ev.requested ≤ 8) ∧
    (∀ pre post,
      (Decoder.readDataSegment ⟨tracedRead Read, (reader, [])⟩ size tmp buffer).2.reader.2
        = pre ++ post →
      (∀ e ∈ pre, e.complete) → (pre.map ReadEvent.n).sum ≤ size) := by
  have htrace := readDataSegment_LoopTrace Read reader size tmp buffer hslice hsize htmp
  refine ⟨LoopTrace_returned size _ 0 _ htrace, ?_, ?_, ?_, ?_⟩
  · simp only [Decoder.readDataSegment]
    rw [(readLoop_tracedRead Read size (size.toNat + 1) reader [] tmp buffer 0).1]
  · have := (LoopTrace_length size _ 0 _ htrace).2
    simpa using this
  · intro pre ev post hlog
    obtain ⟨hpre, hb, hr, _⟩ := LoopTrace_split size _ 0 _ htrace pre ev post hlog
    simp only [Int.zero_add] at hb hr
    refine ⟨hpre, hb, hr, ?_, ?_⟩ <;> omega
  · intro pre post hlog hpre
    have := LoopTrace_processed size _ 0 _ htrace pre post hlog hpre
    simpa using this

/-- Witness of C20: 11 bytes are asked of an in-memory source that holds 12. -/
theorem C20_read_loop_terminates_witness :
    (∃ res, (Decoder.readDataSegment ⟨BytesReader.Read,
        ⟨[1, 2, 3, 4, 5, 6, 7, 8, 9, 10, 11, 12], 0⟩⟩ 11 [9, 9, 9, 9, 9, 9, 9, 9] []).1
      = Outcome.returned res) ∧
    (Decoder.readDataSegment ⟨tracedRead BytesReader.Read,
        (⟨[1, 2, 3, 4, 5, 6, 7, 8, 9, 10, 11, 12], 0⟩, [])⟩ 11 [9, 9, 9, 9, 9, 9, 9, 9] []).1
      = (Decoder.readDataSegment ⟨BytesReader.Read,
        ⟨[1, 2, 3, 4, 5, 6, 7, 8, 9, 10, 11, 12], 0⟩⟩ 11 [9, 9, 9, 9, 9, 9, 9, 9] []).1 ∧
    (((Decoder.readDataSegment ⟨tracedRead BytesReader.Read,
        (⟨[1, 2, 3, 4, 5, 6, 7, 8, 9, 10, 11, 12], 0⟩, [])⟩ 11 [9, 9, 9, 9, 9, 9, 9, 9]
        []).2.reader.2.length : Int) ≤ (11 + 7) / 8) ∧
    (∀ pre ev post,
      (Decoder.readDataSegment ⟨tracedRead BytesReader.Read,
        (⟨[1, 2, 3, 4, 5, 6, 7, 8, 9, 10, 11, 12], 0⟩, [])⟩ 11 [9, 9, 9, 9, 9, 9, 9, 9]
        []).2.reader.2 = pre ++ ev :: post →
      (∀ e ∈ pre, e.complete) ∧
      (pre.map ReadEvent.n).sum < 11 ∧
      (ev.requested : Int) = min 8 (11 - (pre.map ReadEvent.n).sum) ∧
      1 ≤ ev.requested ∧ ev.requested ≤ 8) ∧
    (∀ pre post,
      (Decoder.readDataSegment ⟨tracedRead BytesReader.Read,
        (⟨[1, 2, 3, 4, 5, 6, 7, 8, 9, 10, 11, 12], 0⟩, [])⟩ 11 [9, 9, 9, 9, 9, 9, 9, 9]
        []).2.reader.2 = pre ++ post →
      (∀ e ∈ pre, e.complete) → (pre.map ReadEvent.n).sum ≤ 11) :=
  C20_read_loop_terminates BytesReader.Read ⟨[1, 2, 3, 4, 5, 6, 7, 8, 9, 10, 11, 12], 0⟩ 11
    [9, 9, 9, 9, 9, 9, 9, 9] [] BytesReader.Read_length (by decide) (by decide)

/-! ## Reads and writes on a pool that holds a buffer written after finalize -/

/-- C1, evaluated where the code departs from it: an encoder is finalized and
then written to (`PutUint8 1` is not refused), which leaves `01` in a buffer
of the pool; `NewEncoder` is handed that buffer, so `PutUint8 7` on the new
encoder leaves `01 07` accumulated, and `GetUint8` on a decoder over those
bytes returns `1` with a nil error, not `7`, and leaves `07` unread. -/
theorem C1_roundtrip_on_stale_accumulator :
    pooledAfterLateWrite = [1] ∧
    (NewEncoder [0, 0, 0, 0, 0, 0, 0, 0] pooledAfterLateWrite).payload = [1] ∧
    ((NewEncoder [0, 0, 0, 0, 0, 0, 0, 0] pooledAfterLateWrite).PutUint8 7).2 = none ∧
    ((NewEncoder [0, 0, 0, 0, 0, 0, 0, 0] pooledAfterLateWrite).PutUint8 7).1.payload = [1, 7] ∧
    ((NewDecoder (((NewEncoder [0, 0, 0, 0, 0, 0, 0, 0] pooledAfterLateWrite).PutUint8
        7).1.payload ++ [])).GetUint8 [0, 0, 0, 0, 0, 0, 0, 0]).1 = (1, none) ∧
    ((NewDecoder (((NewEncoder [0, 0, 0, 0, 0, 0, 0, 0] pooledAfterLateWrite).PutUint8
        7).1.payload ++ [])).GetUint8 [0, 0, 0, 0, 0, 0, 0, 0]).2.reader.unread = [7] := by
  decide

/-- C2, evaluated where the code departs from it: `PutString "hi"` on a fresh
encoder writes `00 02 68 69`; when `readDataSegment` is handed the pool buffer
that an encoder wrote `01` to after its finalize, `GetString` on those bytes
returns the 3-byte string `01 68 69` and `GetDataSegmentWith2BytesHeader` the
slice `01 68 69`, both with a nil error, instead of `"hi"`. -/
theorem C2_roundtrip_on_stale_accumulator :
    pooledAfterLateWrite = [1] ∧
    ((NewEncoder [0, 0, 0, 0, 0, 0, 0, 0] []).PutString [0x68, 0x69]).1.payload
      = [0x00, 0x02, 0x68, 0x69] ∧
    ((NewDecoder [0x00, 0x02, 0x68, 0x69]).GetDataSegmentWith2BytesHeader
        [0, 0, 0, 0, 0, 0, 0, 0] [0, 0, 0, 0, 0, 0, 0, 0] pooledAfterLateWrite).1
      = Outcome.returned (some [0x01, 0x68, 0x69], none) ∧
    ((NewDecoder [0x00, 0x02, 0x68, 0x69]).GetString
        [0, 0, 0, 0, 0, 0, 0, 0] [0, 0, 0, 0, 0, 0, 0, 0] pooledAfterLateWrite).1
      = Outcome.returned ([0x01, 0x68, 0x69], none) := by
  decide

/-- C3, evaluated where the code departs from it:
`PutVariadicDataWithByteHeader [5, 6]` on a fresh encoder writes `02 05 06`;
when `readDataSegment` is handed the pool buffer that an encoder wrote `01` to
after its finalize, `GetDataSegmentWithByteHeader` on those bytes returns
`01 05 06` with a nil error, instead of `05 06`. -/
theorem C3_roundtrip_on_stale_accumulator :
    pooledAfterLateWrite = [1] ∧
    ((NewEncoder [0, 0, 0, 0, 0, 0, 0, 0] []).PutVariadicDataWithByteHeader [5, 6]).1.payload
      = [2, 5, 6] ∧
    ((NewDecoder [2, 5, 6]).GetDataSegmentWithByteHeader
        [0, 0, 0, 0, 0, 0, 0, 0] [0, 0, 0, 0, 0, 0, 0, 0] pooledAfterLateWrite).1
      = Outcome.returned (some [1, 5, 6], none) := by
  decide

/-- C7, evaluated where the code departs from it: `PutUint8 7`,
`PutString "ok"`, `CollectDataAndReleaseBuffers` on an encoder with an empty
accumulator returns `07 00 02 6F 6B`, and `GetUint8` on those bytes yields `7`;
but when `readDataSegment` is handed the pool buffer that an encoder wrote `01`
to after its finalize, the `GetString` that follows yields the 3-byte string
`01 6F 6B` with a nil error, instead of `"ok"`. -/
theorem C7_decode_on_stale_accumulator :
    pooledAfterLateWrite = [1] ∧
    ((NewEncoder [0, 0, 0, 0, 0, 0, 0, 0] []).calls
        [PutCall.uint8 7, PutCall.string [0x6F, 0x6B]]).CollectDataAndReleaseBuffers.1
      = [0x07, 0x00, 0x02, 0x6F, 0x6B] ∧
    ((NewDecoder [0x07, 0x00, 0x02, 0x6F, 0x6B]).GetUint8 [0, 0, 0, 0, 0, 0, 0, 0]).1
      = (7, none) ∧
    (((NewDecoder [0x07, 0x00, 0x02, 0x6F, 0x6B]).GetUint8
        [0, 0, 0, 0, 0, 0, 0, 0]).2.GetString [0, 0, 0, 0, 0, 0, 0, 0]
        [0, 0, 0, 0, 0, 0, 0, 0] pooledAfterLateWrite).1
      = Outcome.returned ([0x01, 0x6F, 0x6B], none) := by
  decide

/-- C8, evaluated where the code departs from it: when `readDataSegment` is
handed the pool buffer that an encoder wrote `01` to after its finalize,
`GetDataSegment 2` on the source `02 03` returns the 3 bytes `01 02 03` with a
nil error, not the next 2 bytes of the source; the read index advances by
2. -/
theorem C8_read_on_stale_accumulator :
    pooledAfterLateWrite = [1] ∧
    ((NewDecoder [2, 3]).GetDataSegment 2 [0, 0, 0, 0, 0, 0, 0, 0] pooledAfterLateWrite).1
      = Outcome.returned (some [1, 2, 3], none) ∧
    ((NewDecoder [2, 3]).GetDataSegment 2 [0, 0, 0, 0, 0, 0, 0, 0]
        pooledAfterLateWrite).2.reader.i = 2 := by
  decide

/-- C11, evaluated where the code departs from it:
`PutBigIntWithByteHeader 5` on a fresh encoder writes `01 05`; when
`readDataSegment` is handed the pool buffer that an encoder wrote `01` to
after its finalize, `GetBigIntWithByteHeader` on those bytes returns `261`
(the value of `01 05`) with a nil error, instead of `5`. -/
theorem C11_roundtrip_on_stale_accumulator :
    pooledAfterLateWrite = [1] ∧
    ((NewEncoder [0, 0, 0, 0, 0, 0, 0, 0] []).PutBigIntWithByteHeader 5).2 = none ∧
    ((NewEncoder [0, 0, 0, 0, 0, 0, 0, 0] []).PutBigIntWithByteHeader 5).1.payload = [1, 5] ∧
    ((NewDecoder [1, 5]).GetBigIntWithByteHeader
        [0, 0, 0, 0, 0, 0, 0, 0] [0, 0, 0, 0, 0, 0, 0, 0] pooledAfterLateWrite).1
      = Outcome.returned (some 261, none) := by
  decide

/-- C19, evaluated where the code departs from it: when `readDataSegment` is
handed the pool buffer that an encoder wrote `01` to after its finalize,
`GetDataSegmentWithByteHeader` on the source `02 05 06` succeeds with
`01 05 06` after consuming the 3 bytes `02 05 06`, and
`PutVariadicDataWithByteHeader` of that result on a fresh encoder appends
`03 01 05 06`, not the consumed bytes; likewise `GetDataSegmentWith2BytesHeader`
on `00 02 05 06` yields `01 05 06`, which is written back as
`00 03 01 05 06`. -/
theorem C19_reencode_on_stale_accumulator :
    pooledAfterLateWrite = [1] ∧
    ((NewDecoder [2, 5, 6]).GetDataSegmentWithByteHeader
        [0, 0, 0, 0, 0, 0, 0, 0] [0, 0, 0, 0, 0, 0, 0, 0] pooledAfterLateWrite).1
      = Outcome.returned (some [1, 5, 6], none) ∧
    ((NewDecoder [2, 5, 6]).GetDataSegmentWithByteHeader
        [0, 0, 0, 0, 0, 0, 0, 0] [0, 0, 0, 0, 0, 0, 0, 0] pooledAfterLateWrite).2.reader.i
      = 3 ∧
    ((NewEncoder [0, 0, 0, 0, 0, 0, 0, 0] []).PutVariadicDataWithByteHeader [1, 5, 6])
      = ({ tmpBuffer := [0, 0, 0, 0, 0, 0, 0, 0], payload := [3, 1, 5, 6], isReleased := true },
          none) ∧
    ((NewDecoder [0, 2, 5, 6]).GetDataSegmentWith2BytesHeader
        [0, 0, 0, 0, 0, 0, 0, 0] [0, 0, 0, 0, 0, 0, 0, 0] pooledAfterLateWrite).1
      = Outcome.returned (some [1, 5, 6], none) ∧
    ((NewEncoder [0, 0, 0, 0, 0, 0, 0, 0] []).PutVariadicDataWith2BytesHeader
        [1, 5, 6]).1.payload = [0, 3, 1, 5, 6] := by
  decide

end Marshalling
